import Mathlib

/-!
Bundle codec of `beacon/engine/v2_envelope_type.go`.

A shallow embedding of `marshalBundle` and `unmarshalBundle` and the properties of
the packed-buffer format they implement, and of the envelope that carries the packed
buffer: `ExecutionPayloadEnvelopeToV2` and `ExecutionPayloadEnvelopeV2.UnmarshalJSON`.

Modelling conventions.

* A Go `[]byte` value is a `Slice`: the bytes in front of it in its backing array
  (`pre`), its elements (`data`, so `len = data.length`) and the bytes of the backing
  array between its length and its capacity (`spare`, so `cap = len + spare.length`).
  Slice expressions are bounds-checked the way the Go language specification
  prescribes (`0 ≤ low ≤ high ≤ cap`, a missing `high` standing for `len`), and a
  failed check is the run-time panic `Fault.sliceBoundsPanic`.
* Go `int` is the 64-bit signed integer of the supported targets.  Every integer
  computed here is a non-negative quantity below `2^63` (a header count is below
  `2^32`, a slice length is bounded by the address space), so `Nat` arithmetic
  coincides with the machine arithmetic; the one truncating conversion,
  `uint32(len(b.Blobs))`, is written `% 2 ^ 32`.
* A function that can return an `error` or panic returns `Except Fault _`.
* `time.Now` and `log.Debug` only emit telemetry and are left out.
* A `nil` slice and an empty slice are both the empty list.
* A pointer is an `Option`: `none` is `nil`, and reading a field through `nil` is
  the panic `Fault.nilDereference`.  `big.Int` and `hexutil.Big` are `Int`; the
  struct `ExecutableData`, declared outside the embedded file, is a type parameter.
* A method with a pointer receiver that assigns to the receiver's fields returns
  the receiver's state after the call next to its result.
* The library function `json.Unmarshal` is a parameter: it maps the input text
  either to an error or to the value of the target struct after decoding into its
  zero value, so that a field of pointer type is `none` exactly when the text left
  it `nil` (the key is missing or `null`).  What it does on a given JSON object is
  written down, from the documentation of `encoding/json`, in
  `EnvelopeObject.unmarshal`.
* What a call leaves unchanged is stated over an explicit memory of byte arrays
  (`Memory`, `SliceRef`), on which the encoder is embedded a second time and shown
  to agree with the embedding on values.
-/

namespace Engine

/-- One octet. -/
abbrev Byte := Fin 256

/-- The conversion `byte(v)` of an unsigned integer: the low eight bits. -/
def toByte (v : Nat) : Byte := ⟨v % 256, Nat.mod_lt v (by decide)⟩

/-- The ways a call can fail: the two errors `unmarshalBundle` returns and the
run-time panics of the Go operations it is built from.  `TooLargeRequest` is the
package-level error value of that name, declared outside the embedded file. -/
inductive Fault where
  | TooLargeRequest
  | badBundleLength
  | sliceBoundsPanic
  | indexPanic
  | nilDereference
deriving DecidableEq, Repr

deriving instance DecidableEq for Except

/-- A Go byte slice together with the part of its backing array it can see. -/
structure Slice where
  pre : List Byte
  data : List Byte
  spare : List Byte
deriving DecidableEq, Repr

namespace Slice

/-- The built-in `len(s)`. -/
def len (s : Slice) : Nat := s.data.length

/-- The built-in `cap(s)`. -/
def cap (s : Slice) : Nat := s.data.length + s.spare.length

/-- The offset of the first element of `s` in its backing array. -/
def offset (s : Slice) : Nat := s.pre.length

/-- The slice expression `s[lo:hi]`. -/
def slice (s : Slice) (lo hi : Nat) : Except Fault Slice :=
  if lo ≤ hi ∧ hi ≤ s.cap then
    .ok { pre := s.pre ++ (s.data ++ s.spare).take lo
          data := ((s.data ++ s.spare).take hi).drop lo
          spare := (s.data ++ s.spare).drop hi }
  else .error .sliceBoundsPanic

/-- The slice expression `s[lo:]`, that is `s[lo:len(s)]`. -/
def sliceFrom (s : Slice) (lo : Nat) : Except Fault Slice := s.slice lo s.len

/-- The slice expression `s[:hi]`, that is `s[0:hi]`. -/
def sliceTo (s : Slice) (hi : Nat) : Except Fault Slice := s.slice 0 hi

/-- The allocation `make([]byte, 0, c)`: no elements, `c` zeroed bytes of capacity. -/
def make (c : Nat) : Slice := { pre := [], data := [], spare := List.replicate c 0 }

/-- The built-in `append(s, xs...)`.  While the capacity suffices the elements are
written into the spare part of the backing array; otherwise a new array is
allocated, whose capacity the language leaves to the run time and which is
modelled as an exact fit. -/
def append (s : Slice) (xs : List Byte) : Slice :=
  if xs.length ≤ s.spare.length then
    { pre := s.pre, data := s.data ++ xs, spare := s.spare.drop xs.length }
  else
    { pre := [], data := s.data ++ xs, spare := [] }

/-- A slice that owns exactly the given bytes (`len = cap`). -/
def ofBytes (bs : List Byte) : Slice := { pre := [], data := bs, spare := [] }

end Slice

/-- The library function `binary.BigEndian.AppendUint32(b, v)`:
`append(b, byte(v>>24), byte(v>>16), byte(v>>8), byte(v))`. -/
def AppendUint32 (b : Slice) (v : Nat) : Slice :=
  b.append [toByte (v >>> 24), toByte (v >>> 16), toByte (v >>> 8), toByte v]

/-- The library function `binary.BigEndian.Uint32(b)`: the bounds check `_ = b[3]`
followed by `uint32(b[3]) | uint32(b[2])<<8 | uint32(b[1])<<16 | uint32(b[0])<<24`. -/
def Uint32 (b : Slice) : Except Fault Nat :=
  match b.data with
  | b0 :: b1 :: b2 :: b3 :: _ =>
    .ok (b3.val ||| (b2.val <<< 8) ||| (b1.val <<< 16) ||| (b0.val <<< 24))
  | _ => .error .indexPanic

/-- Modelled from the spec: the struct `BlobsBundleV1` is declared outside the
embedded file; it is the triple of ordered collections of byte records the codec
reads and fills (`Commitments`, `Proofs`, `Blobs`, each a `[]hexutil.Bytes`). -/
structure BlobsBundleV1 where
  Commitments : List Slice
  Proofs : List Slice
  Blobs : List Slice
deriving DecidableEq, Repr

/-- The loop `for i := range n { ... }` over a loop-carried state. -/
def forRange {σ : Type} (n : Nat) (init : σ) (body : σ → Nat → Except Fault σ) :
    Except Fault σ :=
  (List.range n).foldlM body init

/-- The function `marshalBundle(b *BlobsBundleV1) []byte`. -/
def marshalBundle (b : Option BlobsBundleV1) : Except Fault Slice :=
  match b with
  | none => .error .nilDereference
  | some b =>
    if b.Blobs.length = 0 then
      .ok { pre := [], data := [], spare := [] }
    else
      let bdle := Slice.make
        (b.Blobs.length * (4096 * 32) + b.Blobs.length * 129 * 48 + b.Blobs.length * 48 + 4)
      let bdle := AppendUint32 bdle (b.Blobs.length % 2 ^ 32)
      let bdle := b.Blobs.foldl (fun acc r => acc.append r.data) bdle
      let bdle := b.Commitments.foldl (fun acc r => acc.append r.data) bdle
      let bdle := b.Proofs.foldl (fun acc r => acc.append r.data) bdle
      .ok bdle

/-- First loop of `unmarshalBundle`:
`ebdle.Blobs = append(ebdle.Blobs, bdle[i*4096*32:(i+1)*4096*32])`. -/
def blobsStep (bdle : Slice) (ebdle : BlobsBundleV1) (i : Nat) : Except Fault BlobsBundleV1 :=
  match bdle.slice (i * 4096 * 32) ((i + 1) * 4096 * 32) with
  | .ok r => .ok { ebdle with Blobs := ebdle.Blobs ++ [r] }
  | .error e => .error e

/-- Second loop of `unmarshalBundle`:
`ebdle.Commitments = append(ebdle.Commitments, bdle[i*48:(i+1*48)])`. -/
def commitmentsStep (bdle : Slice) (ebdle : BlobsBundleV1) (i : Nat) :
    Except Fault BlobsBundleV1 :=
  match bdle.slice (i * 48) (i + 1 * 48) with
  | .ok r => .ok { ebdle with Commitments := ebdle.Commitments ++ [r] }
  | .error e => .error e

/-- Third loop of `unmarshalBundle`:
`ebdle.Proofs = append(ebdle.Proofs, bdle[i*48:(i+1*48)])`. -/
def proofsStep (bdle : Slice) (ebdle : BlobsBundleV1) (i : Nat) : Except Fault BlobsBundleV1 :=
  match bdle.slice (i * 48) (i + 1 * 48) with
  | .ok r => .ok { ebdle with Proofs := ebdle.Proofs ++ [r] }
  | .error e => .error e

/-- The part of `unmarshalBundle` after the two checks (source lines 64 to 77),
for the whole buffer `b` and the header count `length`. -/
def unmarshalRecords (b : Slice) (length : Nat) : Except Fault BlobsBundleV1 := do
  let bdle ← b.sliceFrom 4
  let ebdle : BlobsBundleV1 := { Commitments := [], Proofs := [], Blobs := [] }
  let ebdle ← forRange length ebdle (blobsStep bdle)
  let bdle ← bdle.sliceFrom ((length + 1) * 4096 * 32)
  let ebdle ← forRange length ebdle (commitmentsStep bdle)
  let bdle ← bdle.sliceFrom ((length + 1) * 4096 * 32 + (length + 1) * 48)
  let ebdle ← forRange (length * 129) ebdle (proofsStep bdle)
  pure ebdle

/-- The expression `bdle[(length+1)*4096*32:]` of source line 69, with which
`unmarshalBundle` moves on from the primary records to the commitment records. -/
def commitmentsRegion (bdle : Slice) (length : Nat) : Except Fault Slice :=
  bdle.sliceFrom ((length + 1) * 4096 * 32)

/-- The expression `bdle[(length+1)*4096*32+(length+1)*48:]` of source line 73, with
which `unmarshalBundle` moves on from the commitment records to the proof records. -/
def proofsRegion (bdle : Slice) (length : Nat) : Except Fault Slice :=
  bdle.sliceFrom ((length + 1) * 4096 * 32 + (length + 1) * 48)

/-- The function `unmarshalBundle(b []byte) (*BlobsBundleV1, error)`. -/
def unmarshalBundle (b : Slice) : Except Fault BlobsBundleV1 :=
  if b.len = 0 then
    .ok { Commitments := [], Proofs := [], Blobs := [] }
  else do
    let hdr ← b.sliceTo 4
    let length ← Uint32 hdr
    if length > 512 then
      throw Fault.TooLargeRequest
    if b.len ≠ length * (4096 * 32) + length * 129 * 48 + length * 48 + 4 then
      throw Fault.badBundleLength
    unmarshalRecords b length

/-- Modelled from the spec: the struct `ExecutionPayloadEnvelope` is declared outside
the embedded file; of it the embedded file reads the reference to the payload, the
value amount, the pointer to the blobs bundle and the override flag. -/
structure ExecutionPayloadEnvelope (ED : Type) where
  ExecutionPayload : Option ED
  BlockValue : Option Int
  BlobsBundle : Option BlobsBundleV1
  Override : Bool
deriving DecidableEq, Repr

/-- The struct `ExecutionPayloadEnvelopeV2`. -/
structure ExecutionPayloadEnvelopeV2 (ED : Type) where
  ExecutionPayload : Option ED
  BlockValue : Option Int
  BlobsBundle : Slice
  Override : Bool
deriving DecidableEq, Repr

/-- The function `ExecutionPayloadEnvelopeToV2(bd *ExecutionPayloadEnvelope)`. -/
def ExecutionPayloadEnvelopeToV2 {ED : Type} (bd : Option (ExecutionPayloadEnvelope ED)) :
    Except Fault (ExecutionPayloadEnvelopeV2 ED) :=
  match bd with
  | none => .error .nilDereference
  | some bd =>
    match marshalBundle bd.BlobsBundle with
    | .error e => .error e
    | .ok bundle =>
      .ok { ExecutionPayload := bd.ExecutionPayload
            BlockValue := bd.BlockValue
            BlobsBundle := bundle
            Override := bd.Override }

/-- The struct type `ExecutionPayloadEnvelope` that `UnmarshalJSON` declares in its
body, the target of `json.Unmarshal`. -/
structure UnmarshalJSON.ExecutionPayloadEnvelope (ED : Type) where
  ExecutionPayload : Option ED
  BlockValue : Option Int
  Override : Option Bool
  BlobsBundle : Slice
deriving DecidableEq, Repr

/-- The errors `UnmarshalJSON` returns: the one `json.Unmarshal` reported, or one
made by `errors.New` from a message. -/
inductive UnmarshalError (JE : Type) where
  | json (err : JE)
  | new (msg : String)
deriving DecidableEq, Repr

/-- The method `(e *ExecutionPayloadEnvelopeV2) UnmarshalJSON(input []byte) error`:
the receiver after the call and the error returned (`none` for `nil`). -/
def ExecutionPayloadEnvelopeV2.UnmarshalJSON {ED JE : Type}
    (jsonUnmarshal : Slice → Except JE (UnmarshalJSON.ExecutionPayloadEnvelope ED))
    (e : ExecutionPayloadEnvelopeV2 ED) (input : Slice) :
    ExecutionPayloadEnvelopeV2 ED × Option (UnmarshalError JE) :=
  match jsonUnmarshal input with
  | .error err => (e, some (.json err))
  | .ok dec =>
    match dec.ExecutionPayload with
    | none =>
      (e, some (.new "missing required field 'executionPayload' for ExecutionPayloadEnvelope"))
    | some payload =>
      let e := { e with ExecutionPayload := some payload }
      match dec.BlockValue with
      | none =>
        (e, some (.new "missing required field 'blockValue' for ExecutionPayloadEnvelope"))
      | some value =>
        let e := { e with BlockValue := some value }
        let e := { e with BlobsBundle := dec.BlobsBundle }
        let e := match dec.Override with
          | some o => { e with Override := o }
          | none => e
        (e, none)

/-- The errors `json.Unmarshal` reports: the input is not a JSON text, or a member
of the object has a value that its field of the target struct cannot take. -/
inductive JsonError where
  | syntaxError
  | typeError
deriving DecidableEq, Repr

/-- What a syntactically valid JSON object holds under one key of the target struct:
no member with that key, the value `null`, a value the field's type decodes to `a`,
or a value of a JSON type the field cannot take (a number under a key whose field is
a `bool`, say). -/
inductive Member (α : Type) where
  | absent
  | null
  | value (a : α)
  | mismatch
deriving DecidableEq, Repr

/-- A syntactically valid JSON object, as far as the four keys of the struct that
`UnmarshalJSON` decodes into are concerned. -/
structure EnvelopeObject (ED : Type) where
  executionPayload : Member ED
  blockValue : Member Int
  shouldOverrideBuilder : Member Bool
  blobsBundle : Member Slice
deriving DecidableEq, Repr

/-- Library behaviour, from the documentation of `encoding/json`: a field of pointer
type stays `nil` when the object has no member for it or the member is `null`, points
to the decoded value otherwise, and a value of the wrong JSON type is an error. -/
def Member.toPointer {α : Type} : Member α → Except JsonError (Option α)
  | .absent => .ok none
  | .null => .ok none
  | .value a => .ok (some a)
  | .mismatch => .error .typeError

/-- Library behaviour, from the documentation of `encoding/json`: a field of slice
type stays `nil` when the object has no member for it or the member is `null`. -/
def Member.toBytes : Member Slice → Except JsonError Slice
  | .absent => .ok (Slice.ofBytes [])
  | .null => .ok (Slice.ofBytes [])
  | .value a => .ok a
  | .mismatch => .error .typeError

/-- Library behaviour, from the documentation of `encoding/json`: `json.Unmarshal` of
a syntactically valid JSON object into the zero value of the struct declared in
`UnmarshalJSON`.  It returns an error as soon as one member cannot be decoded. -/
def EnvelopeObject.unmarshal {ED : Type} (o : EnvelopeObject ED) :
    Except JsonError (UnmarshalJSON.ExecutionPayloadEnvelope ED) :=
  match o.executionPayload.toPointer, o.blockValue.toPointer,
      o.shouldOverrideBuilder.toPointer, o.blobsBundle.toBytes with
  | .ok payload, .ok value, .ok flag, .ok bundle =>
    .ok { ExecutionPayload := payload, BlockValue := value, Override := flag,
          BlobsBundle := bundle }
  | _, _, _, _ => .error .typeError

/-! ## The encoder over an explicit memory

The definitions above treat a slice as a value.  To tell what a call leaves
unchanged, `marshalBundle` and `ExecutionPayloadEnvelopeToV2` are given once more
as transformers of a memory of byte arrays, in which `make` allocates an array and
`append` writes into the backing array of its first argument. -/

/-- The byte arrays allocated so far; the address of an array is its position. -/
abbrev Memory := List (List Byte)

/-- A slice header: the address of the backing array, the offset of the first
element in it, the length and the capacity. -/
structure SliceRef where
  addr : Nat
  off : Nat
  len : Nat
  cap : Nat
deriving DecidableEq, Repr

namespace SliceRef

/-- The backing array of a slice header. -/
def array (mem : Memory) (r : SliceRef) : List Byte := (mem[r.addr]?).getD []

/-- The elements of the slice. -/
def bytes (mem : Memory) (r : SliceRef) : List Byte :=
  ((r.array mem).drop r.off).take r.len

/-- The slice as a value: what is in front of it, its elements, its spare capacity. -/
def toSlice (mem : Memory) (r : SliceRef) : Slice :=
  { pre := (r.array mem).take r.off
    data := r.bytes mem
    spare := ((r.array mem).drop (r.off + r.len)).take (r.cap - r.len) }

/-- The header points to an allocated array and its capacity lies within it. -/
def Valid (mem : Memory) (r : SliceRef) : Prop :=
  r.addr < mem.length ∧ r.len ≤ r.cap ∧ r.off + r.cap ≤ (r.array mem).length

instance (mem : Memory) (r : SliceRef) : Decidable (Valid mem r) := by
  unfold Valid
  infer_instance

end SliceRef

/-- The allocation `make([]byte, 0, c)`: a new array of `c` zero bytes. -/
def Mem.make (mem : Memory) (c : Nat) : Memory × SliceRef :=
  (mem ++ [List.replicate c 0], { addr := mem.length, off := 0, len := 0, cap := c })

/-- The built-in `append(s, xs...)`: while the capacity suffices the elements are
written into the backing array of `s` behind its last element; otherwise a new
array is allocated (of exactly the size needed, as in `Slice.append`). -/
def Mem.append (mem : Memory) (s : SliceRef) (xs : List Byte) : Memory × SliceRef :=
  if xs.length ≤ s.cap - s.len then
    (mem.set s.addr ((s.array mem).take (s.off + s.len) ++ xs
        ++ (s.array mem).drop (s.off + s.len + xs.length)),
      { addr := s.addr, off := s.off, len := s.len + xs.length, cap := s.cap })
  else
    (mem ++ [s.bytes mem ++ xs],
      { addr := mem.length, off := 0, len := s.len + xs.length, cap := s.len + xs.length })

/-- The library function `binary.BigEndian.AppendUint32(b, v)` in memory. -/
def Mem.AppendUint32 (mem : Memory) (b : SliceRef) (v : Nat) : Memory × SliceRef :=
  Mem.append mem b [toByte (v >>> 24), toByte (v >>> 16), toByte (v >>> 8), toByte v]

/-- The struct `BlobsBundleV1` in memory: the slice headers of its records. -/
structure BundleRef where
  Commitments : List SliceRef
  Proofs : List SliceRef
  Blobs : List SliceRef
deriving DecidableEq, Repr

/-- The bundle as a value. -/
def BundleRef.toBundle (mem : Memory) (b : BundleRef) : BlobsBundleV1 :=
  { Commitments := b.Commitments.map (SliceRef.toSlice mem)
    Proofs := b.Proofs.map (SliceRef.toSlice mem)
    Blobs := b.Blobs.map (SliceRef.toSlice mem) }

/-- All the record headers of a bundle. -/
def BundleRef.records (b : BundleRef) : List SliceRef :=
  b.Blobs ++ b.Commitments ++ b.Proofs

/-- The function `marshalBundle(b *BlobsBundleV1) []byte` in memory: the memory after
the call and the header of the buffer returned. -/
def Mem.marshalBundle (mem : Memory) (b : Option BundleRef) : Except Fault (Memory × SliceRef) :=
  match b with
  | none => .error .nilDereference
  | some b =>
    if b.Blobs.length = 0 then
      .ok (Mem.make mem 0)
    else
      let st := Mem.make mem
        (b.Blobs.length * (4096 * 32) + b.Blobs.length * 129 * 48 + b.Blobs.length * 48 + 4)
      let st := Mem.AppendUint32 st.1 st.2 (b.Blobs.length % 2 ^ 32)
      let st := b.Blobs.foldl (fun st r => Mem.append st.1 st.2 (r.bytes st.1)) st
      let st := b.Commitments.foldl (fun st r => Mem.append st.1 st.2 (r.bytes st.1)) st
      let st := b.Proofs.foldl (fun st r => Mem.append st.1 st.2 (r.bytes st.1)) st
      .ok st

/-- The struct `ExecutionPayloadEnvelope` in memory. -/
structure EnvelopeRef (ED : Type) where
  ExecutionPayload : Option ED
  BlockValue : Option Int
  BlobsBundle : Option BundleRef
  Override : Bool
deriving DecidableEq, Repr

/-- The envelope as a value. -/
def EnvelopeRef.toEnvelope {ED : Type} (mem : Memory) (bd : EnvelopeRef ED) :
    ExecutionPayloadEnvelope ED :=
  { ExecutionPayload := bd.ExecutionPayload
    BlockValue := bd.BlockValue
    BlobsBundle := bd.BlobsBundle.map (BundleRef.toBundle mem)
    Override := bd.Override }

/-- The struct `ExecutionPayloadEnvelopeV2` in memory. -/
structure EnvelopeV2Ref (ED : Type) where
  ExecutionPayload : Option ED
  BlockValue : Option Int
  BlobsBundle : SliceRef
  Override : Bool
deriving DecidableEq, Repr

/-- The version 2 envelope as a value. -/
def EnvelopeV2Ref.toEnvelope {ED : Type} (mem : Memory) (res : EnvelopeV2Ref ED) :
    ExecutionPayloadEnvelopeV2 ED :=
  { ExecutionPayload := res.ExecutionPayload
    BlockValue := res.BlockValue
    BlobsBundle := res.BlobsBundle.toSlice mem
    Override := res.Override }

/-- The function `ExecutionPayloadEnvelopeToV2(bd *ExecutionPayloadEnvelope)` in
memory: the memory after the call, the struct `*bd` after the call (no statement of
the function assigns to it) and the envelope returned. -/
def Mem.ExecutionPayloadEnvelopeToV2 {ED : Type} (mem : Memory)
    (bd : Option (EnvelopeRef ED)) :
    Except Fault (Memory × EnvelopeRef ED × EnvelopeV2Ref ED) :=
  match bd with
  | none => .error .nilDereference
  | some bd =>
    match Mem.marshalBundle mem bd.BlobsBundle with
    | .error e => .error e
    | .ok (mem', bundle) =>
      .ok (mem', bd,
        { ExecutionPayload := bd.ExecutionPayload
          BlockValue := bd.BlockValue
          BlobsBundle := bundle
          Override := bd.Override })

/-- The loop invariant of the encoder in memory: the arrays allocated before the
call (those below address `n`) are as in `mem0`, and the buffer being filled is a
valid slice of an array allocated since. -/
def Mem.Inv (n : Nat) (mem0 mem : Memory) (s : SliceRef) : Prop :=
  n ≤ mem.length ∧ (∀ a, a < n → mem[a]? = mem0[a]?) ∧ s.Valid mem ∧ n ≤ s.addr

/-! ## Vocabulary of the properties -/

/-- The concatenation, in order, of the contents of a collection of records. -/
def recordBytes (l : List Slice) : List Byte := (l.map Slice.data).flatten

/-- A well-formed bundle of count `n`: `n` primary records of 131072 bytes, `n`
commitment records of 48 bytes and `129 * n` proof records of 48 bytes. -/
def WellFormed (b : BlobsBundleV1) (n : Nat) : Prop :=
  (b.Blobs.length = n ∧ ∀ r ∈ b.Blobs, r.len = 131072) ∧
  (b.Commitments.length = n ∧ ∀ r ∈ b.Commitments, r.len = 48) ∧
  (b.Proofs.length = 129 * n ∧ ∀ r ∈ b.Proofs, r.len = 48)

instance (b : BlobsBundleV1) (n : Nat) : Decidable (WellFormed b n) := by
  unfold WellFormed
  infer_instance

/-- A record of `k` zero bytes that owns its backing array. -/
def zeroRecord (k : Nat) : Slice := Slice.ofBytes (List.replicate k 0)

/-- The well-formed bundle of count `n` all of whose bytes are zero. -/
def zeroBundle (n : Nat) : BlobsBundleV1 :=
  { Commitments := List.replicate n (zeroRecord 48)
    Proofs := List.replicate (129 * n) (zeroRecord 48)
    Blobs := List.replicate n (zeroRecord 131072) }

/-- A record of `k` zero bytes in the middle of a larger backing array. -/
def innerZeroRecord (k : Nat) : Slice := { pre := [1], data := List.replicate k 0, spare := [2] }

/-- The well-formed all-zero bundle of count `n` whose records lie inside larger
backing arrays. -/
def innerZeroBundle (n : Nat) : BlobsBundleV1 :=
  { Commitments := List.replicate n (innerZeroRecord 48)
    Proofs := List.replicate (129 * n) (innerZeroRecord 48)
    Blobs := List.replicate n (innerZeroRecord 131072) }

/-- A buffer with the header bytes `b0 b1 b2 b3` followed by `k` zero bytes, with
no capacity beyond its length. -/
def zeroBuffer (b0 b1 b2 b3 : Byte) (k : Nat) : Slice :=
  Slice.ofBytes (b0 :: b1 :: b2 :: b3 :: List.replicate k 0)

/-- All the records of a bundle: the primary, then the commitment, then the proof
records. -/
def records (b : BlobsBundleV1) : List Slice := b.Blobs ++ b.Commitments ++ b.Proofs

namespace Slice

/-- The backing array as far as a slice can see it. -/
def backing (s : Slice) : List Byte := s.pre ++ s.data ++ s.spare

/-- Two slices of one backing array cover byte ranges without a common position. -/
def Disjoint (r1 r2 : Slice) : Prop :=
  r1.offset + r1.len ≤ r2.offset ∨ r2.offset + r2.len ≤ r1.offset

instance (r1 r2 : Slice) : Decidable (Disjoint r1 r2) := by
  unfold Disjoint
  infer_instance

/-- The bytes of the array `arr` in the byte range of the slice `r`. -/
def readIn (arr : List Byte) (r : Slice) : List Byte := (arr.drop r.offset).take r.len

/-- The array `arr` after the bytes in the range of the slice `r` are overwritten
with `new`. -/
def overwriteIn (arr : List Byte) (r : Slice) (new : List Byte) : List Byte :=
  arr.take r.offset ++ new ++ arr.drop (r.offset + r.len)

end Slice

/-- The message of the error for a missing payload. -/
def missingExecutionPayload : String :=
  "missing required field 'executionPayload' for ExecutionPayloadEnvelope"

/-- The message of the error for a missing value amount. -/
def missingBlockValue : String :=
  "missing required field 'blockValue' for ExecutionPayloadEnvelope"

/-- A stand-in for `json.Unmarshal` that decodes every input to `dec`. -/
def constDecoder (dec : UnmarshalJSON.ExecutionPayloadEnvelope Nat) :
    Slice → Except Unit (UnmarshalJSON.ExecutionPayloadEnvelope Nat) :=
  fun _ => .ok dec

/-- A receiver all of whose fields are set, with the override flag `true`. -/
def setReceiver : ExecutionPayloadEnvelopeV2 Nat :=
  { ExecutionPayload := some 3, BlockValue := some 2, BlobsBundle := Slice.ofBytes [9],
    Override := true }

/-- A decoded object with both required fields and no override flag. -/
def decodedNoOverride : UnmarshalJSON.ExecutionPayloadEnvelope Nat :=
  { ExecutionPayload := some 7, BlockValue := some 1, Override := none,
    BlobsBundle := Slice.ofBytes [4] }

/-- A decoded object with a payload and no value amount. -/
def decodedNoBlockValue : UnmarshalJSON.ExecutionPayloadEnvelope Nat :=
  { ExecutionPayload := some 7, BlockValue := none, Override := some false,
    BlobsBundle := Slice.ofBytes [4] }

/-- A stand-in for `json.Unmarshal` on an input whose text is the JSON object `o`. -/
def objectDecoder (o : EnvelopeObject Nat) :
    Slice → Except JsonError (UnmarshalJSON.ExecutionPayloadEnvelope Nat) :=
  fun _ => o.unmarshal

/-- A JSON object with both required members and a number under the key of the
override flag, such as
`{"executionPayload": ..., "blockValue": "0x1", "shouldOverrideBuilder": 5}`. -/
def objectWrongFlag : EnvelopeObject Nat :=
  { executionPayload := .value 7, blockValue := .value 1, shouldOverrideBuilder := .mismatch,
    blobsBundle := .absent }

/-- A memory with one array, and an envelope whose bundle has one primary record
(`1 2`) and one commitment record (`3`) in it. -/
def sampleMemory : Memory := [[1, 2, 3]]

/-- The bundle of `sampleEnvelope`. -/
def sampleBundleRef : BundleRef :=
  { Commitments := [{ addr := 0, off := 2, len := 1, cap := 1 }], Proofs := [],
    Blobs := [{ addr := 0, off := 0, len := 2, cap := 3 }] }

/-- An envelope in `sampleMemory`. -/
def sampleEnvelope : EnvelopeRef Nat :=
  { ExecutionPayload := some 7, BlockValue := some 1, BlobsBundle := some sampleBundleRef,
    Override := true }

/-! ## Lemmas on the byte-order helpers -/

theorem Uint32_cons (pre spare rest : List Byte) (b0 b1 b2 b3 : Byte) :
    Uint32 ⟨pre, b0 :: b1 :: b2 :: b3 :: rest, spare⟩
      = .ok (b0.val * 2 ^ 24 + b1.val * 2 ^ 16 + b2.val * 2 ^ 8 + b3.val) := by
  have h0 := b0.isLt
  have h1 := b1.isLt
  have h2 := b2.isLt
  have h3 := b3.isLt
  have e1 : b3.val ||| (b2.val <<< 8) = 2 ^ 8 * b2.val + b3.val := by
    rw [Nat.shiftLeft_eq, Nat.lor_comm, Nat.mul_comm]
    exact (Nat.mul_add_lt_is_or (by omega) _).symm
  have e2 : (2 ^ 8 * b2.val + b3.val) ||| (b1.val <<< 16)
      = 2 ^ 16 * b1.val + (2 ^ 8 * b2.val + b3.val) := by
    rw [Nat.shiftLeft_eq, Nat.lor_comm, Nat.mul_comm]
    exact (Nat.mul_add_lt_is_or (by omega) _).symm
  have e3 : (2 ^ 16 * b1.val + (2 ^ 8 * b2.val + b3.val)) ||| (b0.val <<< 24)
      = 2 ^ 24 * b0.val + (2 ^ 16 * b1.val + (2 ^ 8 * b2.val + b3.val)) := by
    rw [Nat.shiftLeft_eq, Nat.lor_comm, Nat.mul_comm]
    exact (Nat.mul_add_lt_is_or (by omega) _).symm
  simp only [Uint32, e1, e2, e3]
  congr 1
  omega

/-- The four bytes of a value below `2^32`, read back big-endian, give the value. -/
theorem toByte_bigEndian (v : Nat) (hv : v < 2 ^ 32) :
    (toByte (v >>> 24)).val * 2 ^ 24 + (toByte (v >>> 16)).val * 2 ^ 16
      + (toByte (v >>> 8)).val * 2 ^ 8 + (toByte v).val = v := by
  simp only [toByte, Nat.shiftRight_eq_div_pow]
  omega

/-! ## Lemmas on `append` -/

namespace Slice

@[simp] theorem append_data (s : Slice) (xs : List Byte) :
    (s.append xs).data = s.data ++ xs := by
  unfold append
  split <;> rfl

theorem append_spare_of_le (s : Slice) (xs : List Byte) (h : xs.length ≤ s.spare.length) :
    (s.append xs).spare = s.spare.drop xs.length := by
  unfold append
  rw [if_pos h]

theorem append_pre_of_le (s : Slice) (xs : List Byte) (h : xs.length ≤ s.spare.length) :
    (s.append xs).pre = s.pre := by
  unfold append
  rw [if_pos h]

/-- The contents after appending a list of records one by one. -/
theorem foldl_append_data (l : List Slice) (s : Slice) :
    (l.foldl (fun acc r => acc.append r.data) s).data
      = s.data ++ (l.map Slice.data).flatten := by
  induction l generalizing s with
  | nil => simp
  | cons r l ih => simp [ih]

/-- While the records fit into the spare capacity, appending them one by one
never reallocates: the spare part only shrinks by what was written. -/
theorem foldl_append_spare (l : List Slice) (s : Slice)
    (h : ((l.map Slice.data).flatten).length ≤ s.spare.length) :
    (l.foldl (fun acc r => acc.append r.data) s).spare
      = s.spare.drop ((l.map Slice.data).flatten).length := by
  induction l generalizing s with
  | nil => simp
  | cons r l ih =>
    simp only [List.map_cons, List.flatten_cons, List.length_append] at h
    have h1 : r.data.length ≤ s.spare.length := by omega
    simp only [List.foldl_cons, List.map_cons, List.flatten_cons, List.length_append]
    have h2 : ((l.map Slice.data).flatten).length ≤ (s.append r.data).spare.length := by
      rw [append_spare_of_le s _ h1, List.length_drop]
      omega
    rw [ih _ h2, append_spare_of_le s _ h1, List.drop_drop]

end Slice

/-! ## Lemmas on slice expressions and on `for ... range` loops -/

namespace Slice

theorem slice_error (s : Slice) (lo hi : Nat) (h : ¬ (lo ≤ hi ∧ hi ≤ s.cap)) :
    s.slice lo hi = .error .sliceBoundsPanic := by
  unfold slice
  rw [if_neg h]

theorem slice_ok (s : Slice) (lo hi : Nat) (h1 : lo ≤ hi) (h2 : hi ≤ s.cap) :
    s.slice lo hi = .ok { pre := s.pre ++ (s.data ++ s.spare).take lo
                          data := ((s.data ++ s.spare).take hi).drop lo
                          spare := (s.data ++ s.spare).drop hi } := by
  unfold slice
  rw [if_pos ⟨h1, h2⟩]

/-- The only way a slice expression fails is the bounds panic. -/
theorem slice_error_eq (s : Slice) (lo hi : Nat) (e : Fault) (h : s.slice lo hi = .error e) :
    e = .sliceBoundsPanic := by
  unfold slice at h
  split at h
  · cases h
  · cases h
    rfl

/-- The expression `s[lo:]` on a slice whose elements are known. -/
theorem sliceFrom_ok (s : Slice) (lo : Nat) (h : lo ≤ s.len) :
    s.sliceFrom lo = .ok { pre := s.pre ++ s.data.take lo
                           data := s.data.drop lo
                           spare := s.spare } := by
  unfold sliceFrom
  have hl : lo ≤ s.data.length := h
  rw [slice_ok s lo s.len h (by simp [len, cap])]
  simp [len, List.take_append_of_le_length hl]

theorem sliceFrom_error (s : Slice) (lo : Nat) (h : s.len < lo) :
    s.sliceFrom lo = .error .sliceBoundsPanic := by
  unfold sliceFrom
  exact slice_error s lo s.len (by omega)

end Slice

theorem forRange_zero {σ : Type} (init : σ) (body : σ → Nat → Except Fault σ) :
    forRange 0 init body = .ok init := rfl

theorem forRange_succ {σ : Type} (n : Nat) (init : σ) (body : σ → Nat → Except Fault σ) :
    forRange (n + 1) init body = (forRange n init body >>= fun acc => body acc n) := by
  unfold forRange
  rw [List.range_succ, List.foldlM_append]
  simp

/-- A loop all of whose iterations succeed returns. -/
theorem forRange_ok {σ : Type} (n : Nat) (init : σ) (body : σ → Nat → Except Fault σ)
    (h : ∀ i, i < n → ∀ acc, ∃ acc', body acc i = .ok acc') :
    ∃ r, forRange n init body = .ok r := by
  induction n with
  | zero => exact ⟨init, rfl⟩
  | succ n ih =>
    obtain ⟨r, hr⟩ := ih (fun i hi acc => h i (by omega) acc)
    obtain ⟨r', hr'⟩ := h n (by omega) r
    refine ⟨r', ?_⟩
    rw [forRange_succ, hr]
    exact hr'

/-- A loop whose body can only fail with `e`, and does fail with it at some
iteration whatever the state, fails with `e`. -/
theorem forRange_error {σ : Type} (n k : Nat) (init : σ) (body : σ → Nat → Except Fault σ)
    (e : Fault) (hk : k < n) (hfail : ∀ acc, body acc k = .error e)
    (honly : ∀ acc i e', body acc i = .error e' → e' = e) :
    forRange n init body = .error e := by
  induction n with
  | zero => omega
  | succ n ih =>
    rw [forRange_succ]
    by_cases hkn : k < n
    · rw [ih hkn]
      rfl
    · have hkeq : k = n := by omega
      subst hkeq
      cases hr : forRange k init body with
      | ok r => exact hfail r
      | error e' =>
        have : ∀ m, ∀ e2, forRange m init body = .error e2 → e2 = e := by
          intro m
          induction m with
          | zero => intro e2 h; cases h
          | succ m ihm =>
            intro e2 h
            rw [forRange_succ] at h
            cases hm : forRange m init body with
            | ok r =>
              rw [hm] at h
              exact honly r m e2 h
            | error e3 =>
              rw [hm] at h
              cases h
              exact ihm _ hm
        rw [this k e' hr]
        rfl

/-! ## The two checks of `unmarshalBundle` -/

/-- The header count of a buffer that starts with the bytes `b0 b1 b2 b3`. -/
theorem header_ok (s : Slice) (b0 b1 b2 b3 : Byte) (rest : List Byte)
    (hs : s.data = b0 :: b1 :: b2 :: b3 :: rest) :
    (s.sliceTo 4 >>= Uint32)
      = .ok (b0.val * 2 ^ 24 + b1.val * 2 ^ 16 + b2.val * 2 ^ 8 + b3.val) := by
  obtain ⟨pre, data, spare⟩ := s
  simp only at hs
  subst hs
  unfold Slice.sliceTo
  rw [Slice.slice_ok _ 0 4 (by omega) (by simp [Slice.cap]; omega)]
  simp only [bind, Except.bind, List.cons_append, List.take_succ_cons, List.take_zero,
    List.drop_zero]
  exact Uint32_cons _ _ [] b0 b1 b2 b3

/-- What `unmarshalBundle` does on a buffer of at least four bytes: the size check,
then the length check, then the partition of the buffer. -/
theorem unmarshalBundle_of_header (s : Slice) (b0 b1 b2 b3 : Byte) (rest : List Byte)
    (hs : s.data = b0 :: b1 :: b2 :: b3 :: rest) :
    unmarshalBundle s =
      if b0.val * 2 ^ 24 + b1.val * 2 ^ 16 + b2.val * 2 ^ 8 + b3.val > 512 then
        .error .TooLargeRequest
      else if rest.length + 4 ≠
          (b0.val * 2 ^ 24 + b1.val * 2 ^ 16 + b2.val * 2 ^ 8 + b3.val) * (4096 * 32)
          + (b0.val * 2 ^ 24 + b1.val * 2 ^ 16 + b2.val * 2 ^ 8 + b3.val) * 129 * 48
          + (b0.val * 2 ^ 24 + b1.val * 2 ^ 16 + b2.val * 2 ^ 8 + b3.val) * 48 + 4 then
        .error .badBundleLength
      else
        unmarshalRecords s (b0.val * 2 ^ 24 + b1.val * 2 ^ 16 + b2.val * 2 ^ 8 + b3.val) := by
  have hh := header_ok s b0 b1 b2 b3 rest hs
  have hlen : s.len = rest.length + 4 := by simp [Slice.len, hs]
  unfold unmarshalBundle
  rw [if_neg (by omega)]
  cases h4 : s.sliceTo 4 with
  | error e => rw [h4] at hh; cases hh
  | ok hdr =>
    rw [h4] at hh
    have hu : Uint32 hdr
        = .ok (b0.val * 2 ^ 24 + b1.val * 2 ^ 16 + b2.val * 2 ^ 8 + b3.val) := hh
    simp only [bind, Except.bind, hu, hlen]
    split_ifs <;> rfl

/-! ## The partition of an accepted buffer -/

/-- Every iteration of the first loop succeeds when the buffer behind the header
holds `n` records of `4096*32` bytes. -/
theorem blobsStep_ok (bdle : Slice) (n i : Nat) (hi : i < n)
    (hlen : n * (4096 * 32) ≤ bdle.len) (acc : BlobsBundleV1) :
    ∃ acc', blobsStep bdle acc i = .ok acc' := by
  unfold blobsStep
  have hc : bdle.len ≤ bdle.cap := by simp [Slice.len, Slice.cap]
  have h1 : (i + 1) * 4096 * 32 ≤ n * (4096 * 32) := by
    have : i + 1 ≤ n := hi
    nlinarith
  rw [Slice.slice_ok bdle _ _ (by omega) (by omega)]
  exact ⟨_, rfl⟩

/-- The third iteration of the second loop evaluates `bdle[96:50]`. -/
theorem commitmentsStep_two (bdle : Slice) (acc : BlobsBundleV1) :
    commitmentsStep bdle acc 2 = .error .sliceBoundsPanic := by
  unfold commitmentsStep
  rw [Slice.slice_error bdle _ _ (by omega)]

theorem commitmentsStep_error_eq (bdle : Slice) (acc : BlobsBundleV1) (i : Nat) (e : Fault)
    (h : commitmentsStep bdle acc i = .error e) : e = .sliceBoundsPanic := by
  unfold commitmentsStep at h
  cases hs : bdle.slice (i * 48) (i + 1 * 48) with
  | ok r => rw [hs] at h; cases h
  | error e' =>
    rw [hs] at h
    cases h
    exact Slice.slice_error_eq _ _ _ _ hs

/-- The partition of a buffer of the length the length check demands for the count
`n` never returns: for `n ≤ 21` the expression `bdle[(length+1)*4096*32:]` of source
line 69 is out of range, and for `n ≥ 22` the expression `bdle[i*48:(i+1*48)]` of
source line 71 is out of range at `i = 2`. -/
theorem unmarshalRecords_panics (s : Slice) (n : Nat)
    (hlen : s.len = n * (4096 * 32) + n * 129 * 48 + n * 48 + 4) :
    unmarshalRecords s n = .error .sliceBoundsPanic := by
  unfold unmarshalRecords
  rw [Slice.sliceFrom_ok s 4 (by omega)]
  have hd : (s.data.drop 4).length = n * (4096 * 32) + n * 129 * 48 + n * 48 := by
    have : s.data.length = n * (4096 * 32) + n * 129 * 48 + n * 48 + 4 := hlen
    rw [List.length_drop]
    omega
  obtain ⟨e1, he1⟩ := forRange_ok n
    ({ Commitments := [], Proofs := [], Blobs := [] } : BlobsBundleV1)
    (blobsStep { pre := s.pre ++ s.data.take 4, data := s.data.drop 4, spare := s.spare })
    (fun i hi acc => blobsStep_ok _ n i hi (by simp only [Slice.len]; omega) acc)
  simp only [bind, Except.bind, he1]
  by_cases h21 : n ≤ 21
  · rw [Slice.sliceFrom_error _ _ (by simp only [Slice.len]; omega)]
  · rw [Slice.sliceFrom_ok _ _ (by simp only [Slice.len]; omega)]
    simp only []
    rw [forRange_error n 2 e1 _ .sliceBoundsPanic (by omega)
      (fun acc => commitmentsStep_two _ acc)
      (fun acc i e' h => commitmentsStep_error_eq _ acc i e' h)]

/-- A non-empty buffer that passes both checks makes `unmarshalBundle` panic. -/
theorem unmarshalBundle_accepted_panics (s : Slice) (b0 b1 b2 b3 : Byte) (rest : List Byte)
    (n : Nat) (hs : s.data = b0 :: b1 :: b2 :: b3 :: rest)
    (hn : b0.val * 2 ^ 24 + b1.val * 2 ^ 16 + b2.val * 2 ^ 8 + b3.val = n)
    (hle : n ≤ 512) (hlen : rest.length = n * 131072 + n * 48 + 129 * n * 48) :
    unmarshalBundle s = .error .sliceBoundsPanic := by
  rw [unmarshalBundle_of_header s b0 b1 b2 b3 rest hs, hn, if_neg (by omega),
    if_neg (by omega)]
  exact unmarshalRecords_panics s n (by simp only [Slice.len, hs, List.length_cons]; omega)

/-! ## The buffer built by `marshalBundle` -/

theorem recordBytes_length (l : List Slice) (k : Nat) (h : ∀ r ∈ l, r.len = k) :
    (recordBytes l).length = l.length * k := by
  induction l with
  | nil => simp [recordBytes]
  | cons r l ih =>
    have hr : r.data.length = k := h r (List.mem_cons_self _ _)
    have hl := ih (fun x hx => h x (List.mem_cons_of_mem _ hx))
    simp only [recordBytes, List.map_cons, List.flatten_cons, List.length_append,
      List.length_cons] at hl ⊢
    rw [hl, hr]
    ring

/-- The value `marshalBundle` returns for a bundle with a primary record. -/
theorem marshalBundle_of_ne_nil (b : BlobsBundleV1) (h : b.Blobs ≠ []) :
    marshalBundle (some b) = .ok
      (b.Proofs.foldl (fun acc r => acc.append r.data)
        (b.Commitments.foldl (fun acc r => acc.append r.data)
          (b.Blobs.foldl (fun acc r => acc.append r.data)
            (AppendUint32
              (Slice.make (b.Blobs.length * (4096 * 32) + b.Blobs.length * 129 * 48
                + b.Blobs.length * 48 + 4))
              (b.Blobs.length % 2 ^ 32))))) := by
  have hl : b.Blobs.length ≠ 0 := fun h0 => h (List.length_eq_zero.mp h0)
  simp only [marshalBundle, if_neg hl]

/-- The contents of the buffer `marshalBundle` builds: the four header bytes, then
the three collections. -/
theorem marshalBundle_data (b : BlobsBundleV1) (h : b.Blobs ≠ []) :
    ∃ s, marshalBundle (some b) = .ok s ∧
      s.data = [toByte ((b.Blobs.length % 2 ^ 32) >>> 24),
                toByte ((b.Blobs.length % 2 ^ 32) >>> 16),
                toByte ((b.Blobs.length % 2 ^ 32) >>> 8),
                toByte (b.Blobs.length % 2 ^ 32)]
        ++ recordBytes b.Blobs ++ recordBytes b.Commitments ++ recordBytes b.Proofs := by
  refine ⟨_, marshalBundle_of_ne_nil b h, ?_⟩
  simp only [Slice.foldl_append_data, AppendUint32, Slice.append_data, Slice.make,
    recordBytes, List.nil_append]

/-- For a well-formed bundle the pre-allocated capacity is used up exactly. -/
theorem marshalBundle_spare (b : BlobsBundleV1) (n : Nat) (hwf : WellFormed b n)
    (hn : 1 ≤ n) :
    ∃ s, marshalBundle (some b) = .ok s ∧ s.spare = [] := by
  obtain ⟨⟨hb, hbs⟩, ⟨hc, hcs⟩, ⟨hp, hps⟩⟩ := hwf
  have hne : b.Blobs ≠ [] := by
    intro h0
    rw [h0] at hb
    simp at hb
    omega
  refine ⟨_, marshalBundle_of_ne_nil b hne, ?_⟩
  have lb := recordBytes_length b.Blobs 131072 hbs
  have lc := recordBytes_length b.Commitments 48 hcs
  have lp := recordBytes_length b.Proofs 48 hps
  rw [hb] at lb
  rw [hc] at lc
  rw [hp] at lp
  simp only [recordBytes] at lb lc lp
  have h0 : (AppendUint32 (Slice.make (b.Blobs.length * (4096 * 32)
      + b.Blobs.length * 129 * 48 + b.Blobs.length * 48 + 4))
      (b.Blobs.length % 2 ^ 32)).spare.length = n * 131072 + n * 48 + 129 * n * 48 := by
    unfold AppendUint32
    rw [Slice.append_spare_of_le _ _ (by simp [Slice.make])]
    simp [Slice.make, hb]
    omega
  have h1 : (b.Blobs.foldl (fun acc r => acc.append r.data)
      (AppendUint32 (Slice.make (b.Blobs.length * (4096 * 32)
        + b.Blobs.length * 129 * 48 + b.Blobs.length * 48 + 4))
        (b.Blobs.length % 2 ^ 32))).spare.length = n * 48 + 129 * n * 48 := by
    rw [Slice.foldl_append_spare _ _ (by omega), List.length_drop]
    omega
  have h2 : (b.Commitments.foldl (fun acc r => acc.append r.data)
      (b.Blobs.foldl (fun acc r => acc.append r.data)
      (AppendUint32 (Slice.make (b.Blobs.length * (4096 * 32)
        + b.Blobs.length * 129 * 48 + b.Blobs.length * 48 + 4))
        (b.Blobs.length % 2 ^ 32)))).spare.length = 129 * n * 48 := by
    rw [Slice.foldl_append_spare _ _ (by omega), List.length_drop]
    omega
  apply List.eq_nil_of_length_eq_zero
  rw [Slice.foldl_append_spare _ _ (by omega), List.length_drop]
  omega

theorem zeroBundle_wellFormed (n : Nat) : WellFormed (zeroBundle n) n := by
  refine ⟨⟨?_, ?_⟩, ⟨?_, ?_⟩, ⟨?_, ?_⟩⟩
  · simp only [zeroBundle, List.length_replicate]
  · intro r hr
    rw [List.eq_of_mem_replicate hr]
    simp only [zeroRecord, Slice.ofBytes, Slice.len, List.length_replicate]
  · simp only [zeroBundle, List.length_replicate]
  · intro r hr
    rw [List.eq_of_mem_replicate hr]
    simp only [zeroRecord, Slice.ofBytes, Slice.len, List.length_replicate]
  · simp only [zeroBundle, List.length_replicate]
  · intro r hr
    rw [List.eq_of_mem_replicate hr]
    simp only [zeroRecord, Slice.ofBytes, Slice.len, List.length_replicate]

/-- The header and the length of the buffer built from a well-formed bundle. -/
theorem marshalBundle_wellFormed (b : BlobsBundleV1) (n : Nat) (hwf : WellFormed b n)
    (h1 : 1 ≤ n) (h32 : n < 2 ^ 32) :
    ∃ s b0 b1 b2 b3 rest, marshalBundle (some b) = .ok s ∧
      s.data = b0 :: b1 :: b2 :: b3 :: rest ∧
      b0.val * 2 ^ 24 + b1.val * 2 ^ 16 + b2.val * 2 ^ 8 + b3.val = n ∧
      rest.length = n * 131072 + n * 48 + 129 * n * 48 := by
  obtain ⟨⟨hb, hbs⟩, ⟨hc, hcs⟩, ⟨hp, hps⟩⟩ := hwf
  have hne : b.Blobs ≠ [] := by
    intro h0
    rw [h0] at hb
    simp at hb
    omega
  obtain ⟨s, hs, hd⟩ := marshalBundle_data b hne
  have lb := recordBytes_length b.Blobs 131072 hbs
  have lc := recordBytes_length b.Commitments 48 hcs
  have lp := recordBytes_length b.Proofs 48 hps
  rw [hb, Nat.mod_eq_of_lt h32] at hd
  refine ⟨s, _, _, _, _, recordBytes b.Blobs ++ recordBytes b.Commitments
    ++ recordBytes b.Proofs, hs, ?_, toByte_bigEndian n h32, ?_⟩
  · rw [hd]
    simp
  · simp only [List.length_append, lb, lc, lp, hb, hc, hp]

/-! ## All the outcomes of `unmarshalBundle` -/

/-- A non-empty buffer of capacity below four makes the expression `bdle[:4]` panic. -/
theorem unmarshalBundle_cap_lt_four (s : Slice) (hlen : s.len ≠ 0) (hcap : s.cap < 4) :
    unmarshalBundle s = .error .sliceBoundsPanic := by
  unfold unmarshalBundle
  rw [if_neg hlen]
  unfold Slice.sliceTo
  rw [Slice.slice_error s 0 4 (by omega)]
  rfl

/-- On a non-empty buffer of capacity at least four a header count is read, from
the first four bytes of the backing array, and the two checks are made with it. -/
theorem unmarshalBundle_of_cap (s : Slice) (hlen : s.len ≠ 0) (hcap : 4 ≤ s.cap) :
    ∃ n, unmarshalBundle s =
      if n > 512 then .error .TooLargeRequest
      else if s.len ≠ n * (4096 * 32) + n * 129 * 48 + n * 48 + 4 then
        .error .badBundleLength
      else unmarshalRecords s n := by
  have hl : ((s.data ++ s.spare).take 4).length = 4 := by
    rw [List.length_take, List.length_append]
    simp only [Slice.cap] at hcap
    omega
  unfold unmarshalBundle
  rw [if_neg hlen]
  unfold Slice.sliceTo
  rw [Slice.slice_ok s 0 4 (by omega) hcap]
  generalize (s.data ++ s.spare).take 4 = l at hl
  match l, hl with
  | [c0, c1, c2, c3], _ =>
    refine ⟨c0.val * 2 ^ 24 + c1.val * 2 ^ 16 + c2.val * 2 ^ 8 + c3.val, ?_⟩
    simp only [bind, Except.bind, List.drop_zero, Uint32_cons]
    split_ifs <;> rfl

/-- The four ways a call of `unmarshalBundle` can end: it returns the empty bundle,
on a buffer of length zero; it returns one of its two errors; or it panics on a
slice expression, on a buffer of at most 70303748 bytes. -/
theorem unmarshalBundle_outcome (s : Slice) :
    (s.len = 0 ∧ unmarshalBundle s = .ok { Commitments := [], Proofs := [], Blobs := [] }) ∨
    unmarshalBundle s = .error .TooLargeRequest ∨
    unmarshalBundle s = .error .badBundleLength ∨
    (s.len ≤ 70303748 ∧ unmarshalBundle s = .error .sliceBoundsPanic) := by
  by_cases h0 : s.len = 0
  · left
    refine ⟨h0, ?_⟩
    unfold unmarshalBundle
    rw [if_pos h0]
  · by_cases hcap : s.cap < 4
    · right; right; right
      have : s.len ≤ s.cap := by simp [Slice.len, Slice.cap]
      exact ⟨by omega, unmarshalBundle_cap_lt_four s h0 hcap⟩
    · obtain ⟨n, hn⟩ := unmarshalBundle_of_cap s h0 (by omega)
      rw [hn]
      by_cases h512 : n > 512
      · right; left
        rw [if_pos h512]
      · rw [if_neg h512]
        by_cases hl : s.len ≠ n * (4096 * 32) + n * 129 * 48 + n * 48 + 4
        · right; right; left
          rw [if_pos hl]
        · right; right; right
          rw [if_neg hl]
          have hl' : s.len = n * (4096 * 32) + n * 129 * 48 + n * 48 + 4 := by omega
          exact ⟨by omega, unmarshalRecords_panics s n hl'⟩

/-- The call returns a bundle only on a buffer of length zero, and then the empty
bundle. -/
theorem unmarshalBundle_ok (s : Slice) (b : BlobsBundleV1) (h : unmarshalBundle s = .ok b) :
    s.data = [] ∧ b = { Commitments := [], Proofs := [], Blobs := [] } := by
  rcases unmarshalBundle_outcome s with ⟨h0, h1⟩ | h1 | h1 | ⟨_, h1⟩
  · rw [h1] at h
    cases h
    exact ⟨List.eq_nil_of_length_eq_zero h0, rfl⟩
  · rw [h1] at h; cases h
  · rw [h1] at h; cases h
  · rw [h1] at h; cases h

/-- The function `marshalBundle` returns a buffer for every bundle it is given. -/
theorem marshalBundle_some (b : BlobsBundleV1) : ∃ s, marshalBundle (some b) = .ok s := by
  by_cases h : b.Blobs.length = 0
  · refine ⟨{ pre := [], data := [], spare := [] }, ?_⟩
    simp only [marshalBundle, if_pos h]
  · exact ⟨_, marshalBundle_of_ne_nil b (fun h0 => h (by rw [h0]; rfl))⟩

/-! ## Records of a fixed size can be read back from their concatenation -/

theorem recordBytes_cons (r : Slice) (l : List Slice) :
    recordBytes (r :: l) = r.data ++ recordBytes l := rfl

theorem recordBytes_append_inj (k : Nat) (l1 l2 : List Slice) (x y : List Byte)
    (h1 : ∀ r ∈ l1, r.len = k) (h2 : ∀ r ∈ l2, r.len = k) (hlen : l1.length = l2.length)
    (h : recordBytes l1 ++ x = recordBytes l2 ++ y) :
    l1.map Slice.data = l2.map Slice.data ∧ x = y := by
  induction l1 generalizing l2 with
  | nil =>
    cases l2 with
    | nil => exact ⟨rfl, h⟩
    | cons r l => simp at hlen
  | cons r l ih =>
    cases l2 with
    | nil => simp at hlen
    | cons r2 l2 =>
      have hr : r.data.length = k := h1 r (List.mem_cons_self _ _)
      have hr2 : r2.data.length = k := h2 r2 (List.mem_cons_self _ _)
      rw [recordBytes_cons, recordBytes_cons, List.append_assoc, List.append_assoc] at h
      obtain ⟨hd, ht⟩ := List.append_inj h (by rw [hr, hr2])
      obtain ⟨hm, hxy⟩ := ih l2 (fun x hx => h1 x (List.mem_cons_of_mem _ hx))
        (fun x hx => h2 x (List.mem_cons_of_mem _ hx))
        (by simp only [List.length_cons] at hlen; omega) ht
      exact ⟨by rw [List.map_cons, List.map_cons, hd, hm], hxy⟩

/-- A well-formed bundle of count zero has no records. -/
theorem WellFormed.zero (b : BlobsBundleV1) (hwf : WellFormed b 0) :
    b.Blobs = [] ∧ b.Commitments = [] ∧ b.Proofs = [] :=
  ⟨List.eq_nil_of_length_eq_zero hwf.1.1, List.eq_nil_of_length_eq_zero hwf.2.1.1,
    List.eq_nil_of_length_eq_zero hwf.2.2.1⟩

/-- Two well-formed bundles with primary records whose buffers have the same
contents have the same count and the same records. -/
theorem marshalBundle_data_inj (b1 b2 : BlobsBundleV1) (n1 n2 : Nat)
    (hw1 : WellFormed b1 n1) (hw2 : WellFormed b2 n2) (hp1 : 1 ≤ n1) (hp2 : 1 ≤ n2)
    (h1 : n1 < 2 ^ 32) (h2 : n2 < 2 ^ 32) (s1 s2 : Slice)
    (hs1 : marshalBundle (some b1) = .ok s1) (hs2 : marshalBundle (some b2) = .ok s2)
    (h : s1.data = s2.data) :
    b1.Blobs.map Slice.data = b2.Blobs.map Slice.data ∧
    b1.Commitments.map Slice.data = b2.Commitments.map Slice.data ∧
    b1.Proofs.map Slice.data = b2.Proofs.map Slice.data := by
  have hne1 : b1.Blobs ≠ [] := by
    intro h0
    have := hw1.1.1
    rw [h0] at this
    simp at this
    omega
  have hne2 : b2.Blobs ≠ [] := by
    intro h0
    have := hw2.1.1
    rw [h0] at this
    simp at this
    omega
  obtain ⟨t1, ht1, hd1⟩ := marshalBundle_data b1 hne1
  obtain ⟨t2, ht2, hd2⟩ := marshalBundle_data b2 hne2
  rw [hs1] at ht1
  rw [hs2] at ht2
  cases ht1
  cases ht2
  rw [hw1.1.1, Nat.mod_eq_of_lt h1] at hd1
  rw [hw2.1.1, Nat.mod_eq_of_lt h2] at hd2
  rw [hd1, hd2] at h
  simp only [List.cons_append, List.nil_append, List.cons.injEq] at h
  obtain ⟨e0, e1, e2, e3, hrest⟩ := h
  have hn : n1 = n2 := by
    have v1 := toByte_bigEndian n1 h1
    have v2 := toByte_bigEndian n2 h2
    rw [e0, e1, e2, e3] at v1
    omega
  subst hn
  rw [List.append_assoc, List.append_assoc] at hrest
  obtain ⟨hb, hrest⟩ := recordBytes_append_inj 131072 b1.Blobs b2.Blobs _ _ hw1.1.2 hw2.1.2
    (by rw [hw1.1.1, hw2.1.1]) hrest
  obtain ⟨hc, hp⟩ := recordBytes_append_inj 48 b1.Commitments b2.Commitments _ _
    hw1.2.1.2 hw2.2.1.2 (by rw [hw1.2.1.1, hw2.2.1.1]) hrest
  have hp' : recordBytes b1.Proofs ++ [] = recordBytes b2.Proofs ++ [] := by
    rw [List.append_nil, List.append_nil]
    exact hp
  obtain ⟨hpr, _⟩ := recordBytes_append_inj 48 b1.Proofs b2.Proofs [] [] hw1.2.2.2 hw2.2.2.2
    (by rw [hw1.2.2.1, hw2.2.2.1]) hp'
  exact ⟨hb, hc, hpr⟩

theorem innerZeroBundle_wellFormed (n : Nat) : WellFormed (innerZeroBundle n) n := by
  refine ⟨⟨?_, ?_⟩, ⟨?_, ?_⟩, ⟨?_, ?_⟩⟩
  · simp only [innerZeroBundle, List.length_replicate]
  · intro r hr
    rw [List.eq_of_mem_replicate hr]
    simp only [innerZeroRecord, Slice.len, List.length_replicate]
  · simp only [innerZeroBundle, List.length_replicate]
  · intro r hr
    rw [List.eq_of_mem_replicate hr]
    simp only [innerZeroRecord, Slice.len, List.length_replicate]
  · simp only [innerZeroBundle, List.length_replicate]
  · intro r hr
    rw [List.eq_of_mem_replicate hr]
    simp only [innerZeroRecord, Slice.len, List.length_replicate]

/-- The contents of the buffer depend on the contents of the records only. -/
theorem marshalBundle_data_congr (b1 b2 : BlobsBundleV1)
    (hB : b1.Blobs.map Slice.data = b2.Blobs.map Slice.data)
    (hC : b1.Commitments.map Slice.data = b2.Commitments.map Slice.data)
    (hP : b1.Proofs.map Slice.data = b2.Proofs.map Slice.data) :
    (marshalBundle (some b1)).map Slice.data = (marshalBundle (some b2)).map Slice.data := by
  have hlen : b1.Blobs.length = b2.Blobs.length := by
    have := congrArg List.length hB
    rw [List.length_map, List.length_map] at this
    exact this
  by_cases h1 : b1.Blobs = []
  · have h2 : b2.Blobs = [] := by
      apply List.eq_nil_of_length_eq_zero
      rw [← hlen, h1]
      rfl
    simp only [marshalBundle, h1, h2, List.length_nil, if_pos]
  · have h2 : b2.Blobs ≠ [] := by
      intro h0
      apply h1
      apply List.eq_nil_of_length_eq_zero
      rw [hlen, h0]
      rfl
    obtain ⟨s1, hs1, hd1⟩ := marshalBundle_data b1 h1
    obtain ⟨s2, hs2, hd2⟩ := marshalBundle_data b2 h2
    rw [hs1, hs2]
    simp only [Except.map]
    rw [hd1, hd2]
    simp only [recordBytes, hB, hC, hP, hlen]

/-! ## Overwriting a byte range of a backing array -/

namespace Slice

/-- Two slice expressions of one slice whose index ranges do not overlap give
slices with disjoint byte ranges. -/
theorem slice_disjoint (s r1 r2 : Slice) (lo1 hi1 lo2 hi2 : Nat)
    (h1 : s.slice lo1 hi1 = .ok r1) (h2 : s.slice lo2 hi2 = .ok r2) (h : hi1 ≤ lo2) :
    Disjoint r1 r2 := by
  unfold slice at h1 h2
  split at h1
  · rename_i c1
    split at h2
    · rename_i c2
      cases h1
      cases h2
      left
      simp only [offset, len, cap, List.length_append, List.length_take, List.length_drop]
        at c1 c2 ⊢
      omega
    · cases h2
  · cases h1

/-- Overwriting the range of one slice does not change what a slice with a
disjoint range reads. -/
theorem readIn_overwriteIn (arr new : List Byte) (r1 r2 : Slice) (hd : Disjoint r1 r2)
    (hn : new.length = r1.len) (hb : r1.offset + r1.len ≤ arr.length) :
    readIn (overwriteIn arr r1 new) r2 = readIn arr r2 := by
  unfold readIn overwriteIn
  apply List.ext_getElem?
  intro k
  rw [List.getElem?_take, List.getElem?_take]
  split
  · rename_i hk
    rw [List.getElem?_drop, List.getElem?_drop]
    have hlt : (arr.take r1.offset).length = r1.offset := by
      rw [List.length_take]
      omega
    rcases hd with hd | hd
    · rw [List.getElem?_append_right (by rw [List.length_append]; omega),
        List.getElem?_drop]
      congr 1
      rw [List.length_append]
      omega
    · rw [List.append_assoc, List.getElem?_append_left (by omega),
        List.getElem?_take_of_lt (by omega)]
  · rfl

end Slice

/-! ## The records cut by the three loops -/

/-- The partition of `unmarshalBundle` moves between its three regions with
`commitmentsRegion` and `proofsRegion`. -/
theorem unmarshalRecords_regions (b : Slice) (length : Nat) :
    unmarshalRecords b length =
      (b.sliceFrom 4 >>= fun bdle =>
        forRange length { Commitments := [], Proofs := [], Blobs := [] } (blobsStep bdle)
          >>= fun ebdle =>
        commitmentsRegion bdle length >>= fun bdle =>
        forRange length ebdle (commitmentsStep bdle) >>= fun ebdle =>
        proofsRegion bdle length >>= fun bdle =>
        forRange (length * 129) ebdle (proofsStep bdle)) := by
  unfold unmarshalRecords commitmentsRegion proofsRegion
  simp only [bind_pure]

namespace Slice

/-- A slice expression that succeeds has its bounds in range, and the slice it gives
starts `lo` elements further in the backing array and has `hi - lo` elements. -/
theorem slice_inv (s r : Slice) (lo hi : Nat) (h : s.slice lo hi = .ok r) :
    lo ≤ hi ∧ hi ≤ s.cap ∧ r.offset = s.offset + lo ∧ r.len = hi - lo ∧
    r.data = ((s.data ++ s.spare).take hi).drop lo := by
  unfold slice at h
  split at h
  · rename_i c
    cases h
    refine ⟨c.1, c.2, ?_, ?_, rfl⟩
    · have := c.2
      simp only [offset, cap, List.length_append, List.length_take] at this ⊢
      omega
    · have := c.2
      simp only [len, cap, List.length_drop, List.length_take, List.length_append] at this ⊢
      omega
  · cases h

theorem sliceFrom_inv (s r : Slice) (lo : Nat) (h : s.sliceFrom lo = .ok r) :
    lo ≤ s.len ∧ r.offset = s.offset + lo := by
  unfold sliceFrom at h
  obtain ⟨h1, _, h3, _, _⟩ := slice_inv s r lo s.len h
  exact ⟨h1, h3⟩

end Slice

theorem blobsStep_inv (bdle : Slice) (e e' : BlobsBundleV1) (i : Nat)
    (h : blobsStep bdle e i = .ok e') :
    ∃ r, bdle.slice (i * 4096 * 32) ((i + 1) * 4096 * 32) = .ok r ∧
      e'.Blobs = e.Blobs ++ [r] := by
  unfold blobsStep at h
  cases hs : bdle.slice (i * 4096 * 32) ((i + 1) * 4096 * 32) with
  | error x => rw [hs] at h; cases h
  | ok r =>
    rw [hs] at h
    cases h
    exact ⟨r, rfl, rfl⟩

theorem commitmentsStep_inv (bdle : Slice) (e e' : BlobsBundleV1) (i : Nat)
    (h : commitmentsStep bdle e i = .ok e') :
    ∃ r, bdle.slice (i * 48) (i + 1 * 48) = .ok r ∧
      e'.Commitments = e.Commitments ++ [r] := by
  unfold commitmentsStep at h
  cases hs : bdle.slice (i * 48) (i + 1 * 48) with
  | error x => rw [hs] at h; cases h
  | ok r =>
    rw [hs] at h
    cases h
    exact ⟨r, rfl, rfl⟩

theorem proofsStep_inv (bdle : Slice) (e e' : BlobsBundleV1) (i : Nat)
    (h : proofsStep bdle e i = .ok e') :
    ∃ r, bdle.slice (i * 48) (i + 1 * 48) = .ok r ∧
      e'.Proofs = e.Proofs ++ [r] := by
  unfold proofsStep at h
  cases hs : bdle.slice (i * 48) (i + 1 * 48) with
  | error x => rw [hs] at h; cases h
  | ok r =>
    rw [hs] at h
    cases h
    exact ⟨r, rfl, rfl⟩

/-- A loop whose iteration `i` appends the slice `bdle[lo i:hi i]` to one collection
appends, when it returns, exactly these slices for `i = 0, ..., n - 1`. -/
theorem forRange_cut (bdle : Slice) (step : BlobsBundleV1 → Nat → Except Fault BlobsBundleV1)
    (fld : BlobsBundleV1 → List Slice) (lo hi : Nat → Nat)
    (hstep : ∀ e i e', step e i = .ok e' →
      ∃ r, bdle.slice (lo i) (hi i) = .ok r ∧ fld e' = fld e ++ [r])
    (n : Nat) (e e' : BlobsBundleV1) (h : forRange n e step = .ok e') :
    ∃ new, fld e' = fld e ++ new ∧ new.length = n ∧
      ∀ i r, new[i]? = some r → bdle.slice (lo i) (hi i) = .ok r := by
  induction n generalizing e' with
  | zero =>
    cases h
    exact ⟨[], by simp, rfl, fun i r hr => by simp at hr⟩
  | succ n ih =>
    rw [forRange_succ] at h
    cases h1 : forRange n e step with
    | error x => rw [h1] at h; cases h
    | ok e1 =>
      rw [h1] at h
      obtain ⟨new, hf, hl, hi1⟩ := ih e1 h1
      obtain ⟨r, hr, hfr⟩ := hstep e1 n e' h
      refine ⟨new ++ [r], by rw [hfr, hf, List.append_assoc], by simp [hl], ?_⟩
      intro i x hx
      by_cases hlt : i < new.length
      · rw [List.getElem?_append_left hlt] at hx
        exact hi1 i x hx
      · rw [List.getElem?_append_right (by omega)] at hx
        have hi0 : i - new.length = 0 := by
          by_contra hne
          have : ([r] : List Slice)[i - new.length]? = none := by
            apply List.getElem?_eq_none
            simp only [List.length_cons, List.length_nil]
            omega
          rw [this] at hx
          cases hx
        rw [hi0] at hx
        simp only [List.getElem?_cons_zero, Option.some.injEq] at hx
        subst hx
        have : i = n := by omega
        rw [this]
        exact hr

/-- Slices cut at index ranges that follow one another are pairwise disjoint. -/
theorem pairwise_disjoint_of_cut (bdle : Slice) (lo hi : Nat → Nat) (new : List Slice)
    (hcut : ∀ i r, new[i]? = some r → bdle.slice (lo i) (hi i) = .ok r)
    (hmono : ∀ i j, i < j → lo j ≤ hi j → hi i ≤ lo j) :
    new.Pairwise Slice.Disjoint := by
  rw [List.pairwise_iff_getElem]
  intro i j hi1 hj1 hij
  have h1 := hcut i _ (List.getElem?_eq_getElem hi1)
  have h2 := hcut j _ (List.getElem?_eq_getElem hj1)
  exact Slice.slice_disjoint bdle _ _ _ _ _ _ h1 h2
    (hmono i j hij (Slice.slice_inv bdle _ _ _ h2).1)

/-- The primary records the first loop appends are pairwise disjoint. -/
theorem blobs_loop_disjoint (bdle : Slice) (n : Nat) (e e' : BlobsBundleV1)
    (h : forRange n e (blobsStep bdle) = .ok e') :
    ∃ new, e'.Blobs = e.Blobs ++ new ∧ new.length = n ∧ new.Pairwise Slice.Disjoint := by
  obtain ⟨new, hf, hl, hcut⟩ := forRange_cut bdle (blobsStep bdle) BlobsBundleV1.Blobs
    (fun i => i * 4096 * 32) (fun i => (i + 1) * 4096 * 32)
    (fun e i e' hs => blobsStep_inv bdle e e' i hs) n e e' h
  exact ⟨new, hf, hl, pairwise_disjoint_of_cut bdle _ _ new hcut
    (fun i j hij _ => by omega)⟩

/-- The commitment records the second loop appends are pairwise disjoint. -/
theorem commitments_loop_disjoint (bdle : Slice) (n : Nat) (e e' : BlobsBundleV1)
    (h : forRange n e (commitmentsStep bdle) = .ok e') :
    ∃ new, e'.Commitments = e.Commitments ++ new ∧ new.length = n ∧
      new.Pairwise Slice.Disjoint := by
  obtain ⟨new, hf, hl, hcut⟩ := forRange_cut bdle (commitmentsStep bdle)
    BlobsBundleV1.Commitments (fun i => i * 48) (fun i => i + 1 * 48)
    (fun e i e' hs => commitmentsStep_inv bdle e e' i hs) n e e' h
  exact ⟨new, hf, hl, pairwise_disjoint_of_cut bdle _ _ new hcut
    (fun i j hij hj => by omega)⟩

/-- The proof records the third loop appends are pairwise disjoint. -/
theorem proofs_loop_disjoint (bdle : Slice) (n : Nat) (e e' : BlobsBundleV1)
    (h : forRange n e (proofsStep bdle) = .ok e') :
    ∃ new, e'.Proofs = e.Proofs ++ new ∧ new.length = n ∧ new.Pairwise Slice.Disjoint := by
  obtain ⟨new, hf, hl, hcut⟩ := forRange_cut bdle (proofsStep bdle) BlobsBundleV1.Proofs
    (fun i => i * 48) (fun i => i + 1 * 48)
    (fun e i e' hs => proofsStep_inv bdle e e' i hs) n e e' h
  exact ⟨new, hf, hl, pairwise_disjoint_of_cut bdle _ _ new hcut
    (fun i j hij hj => by omega)⟩

/-- Records cut in different regions are disjoint: a primary record of index below
`n`, a commitment record of index below `n` cut behind `commitmentsRegion`, and a proof
record cut behind `proofsRegion`. -/
theorem regions_disjoint (bdle1 bdle2 bdle3 : Slice) (n i j k : Nat)
    (e1 e1' e2 e2' e3 e3' : BlobsBundleV1) (r1 r2 r3 : Slice)
    (hr2 : commitmentsRegion bdle1 n = .ok bdle2) (hr3 : proofsRegion bdle2 n = .ok bdle3)
    (hi : i < n) (hj : j < n)
    (h1 : blobsStep bdle1 e1 i = .ok e1') (hb : e1'.Blobs = e1.Blobs ++ [r1])
    (h2 : commitmentsStep bdle2 e2 j = .ok e2')
    (hc : e2'.Commitments = e2.Commitments ++ [r2])
    (h3 : proofsStep bdle3 e3 k = .ok e3') (hp : e3'.Proofs = e3.Proofs ++ [r3]) :
    Slice.Disjoint r1 r2 ∧ Slice.Disjoint r1 r3 ∧ Slice.Disjoint r2 r3 := by
  obtain ⟨x1, hx1, hb1⟩ := blobsStep_inv bdle1 e1 e1' i h1
  obtain ⟨x2, hx2, hc2⟩ := commitmentsStep_inv bdle2 e2 e2' j h2
  obtain ⟨x3, hx3, hp3⟩ := proofsStep_inv bdle3 e3 e3' k h3
  rw [hb] at hb1
  rw [hc] at hc2
  rw [hp] at hp3
  have e1r : r1 = x1 := by simpa using hb1
  have e2r : r2 = x2 := by simpa using hc2
  have e3r : r3 = x3 := by simpa using hp3
  subst e1r e2r e3r
  obtain ⟨a1, _, a3, a4, _⟩ := Slice.slice_inv bdle1 r1 _ _ hx1
  obtain ⟨b1, _, b3, b4, _⟩ := Slice.slice_inv bdle2 r2 _ _ hx2
  obtain ⟨c1, _, c3, c4, _⟩ := Slice.slice_inv bdle3 r3 _ _ hx3
  obtain ⟨_, d2⟩ := Slice.sliceFrom_inv bdle1 bdle2 _ hr2
  obtain ⟨_, d3⟩ := Slice.sliceFrom_inv bdle2 bdle3 _ hr3
  unfold Slice.Disjoint
  refine ⟨Or.inl ?_, Or.inl ?_, Or.inl ?_⟩ <;> omega

/-! ## Encoding again what the first loop decoded -/

/-- The four bytes whose big-endian value is `n` are the bytes `AppendUint32` writes
for `n`. -/
theorem toByte_of_bigEndian (b0 b1 b2 b3 : Byte) (n : Nat)
    (hn : b0.val * 2 ^ 24 + b1.val * 2 ^ 16 + b2.val * 2 ^ 8 + b3.val = n) :
    toByte (n >>> 24) = b0 ∧ toByte (n >>> 16) = b1 ∧ toByte (n >>> 8) = b2 ∧
    toByte n = b3 := by
  have h0 := b0.isLt
  have h1 := b1.isLt
  have h2 := b2.isLt
  have h3 := b3.isLt
  refine ⟨?_, ?_, ?_, ?_⟩ <;> apply Fin.ext <;>
    simp only [toByte, Nat.shiftRight_eq_div_pow] <;> omega

theorem recordBytes_append_singleton (l : List Slice) (r : Slice) :
    recordBytes (l ++ [r]) = recordBytes l ++ r.data := by
  simp [recordBytes]

theorem take_append_drop_take (l : List Byte) (a b : Nat) (h : a ≤ b) :
    l.take a ++ (l.take b).drop a = l.take b := by
  have e : l.take a = (l.take b).take a := by
    rw [List.take_take, Nat.min_eq_left h]
  rw [e, List.take_append_drop]

theorem blobsStep_inv_full (bdle : Slice) (e e' : BlobsBundleV1) (i : Nat)
    (h : blobsStep bdle e i = .ok e') :
    ∃ r, bdle.slice (i * 4096 * 32) ((i + 1) * 4096 * 32) = .ok r ∧
      e' = { e with Blobs := e.Blobs ++ [r] } := by
  unfold blobsStep at h
  cases hs : bdle.slice (i * 4096 * 32) ((i + 1) * 4096 * 32) with
  | error x => rw [hs] at h; cases h
  | ok r =>
    rw [hs] at h
    cases h
    exact ⟨r, rfl, rfl⟩

/-- The primary records the first loop appends are, one after the other, the first
`n * 4096 * 32` bytes of the region it reads; the other collections are untouched. -/
theorem blobs_loop_bytes (bdle : Slice) (n : Nat) (e e' : BlobsBundleV1)
    (h : forRange n e (blobsStep bdle) = .ok e') :
    recordBytes e'.Blobs = recordBytes e.Blobs ++ (bdle.data ++ bdle.spare).take (n * 4096 * 32) ∧
    e'.Blobs.length = e.Blobs.length + n ∧
    e'.Commitments = e.Commitments ∧ e'.Proofs = e.Proofs := by
  induction n generalizing e' with
  | zero =>
    cases h
    simp
  | succ n ih =>
    rw [forRange_succ] at h
    cases h1 : forRange n e (blobsStep bdle) with
    | error x => rw [h1] at h; cases h
    | ok e1 =>
      rw [h1] at h
      obtain ⟨hb, hl, hc, hp⟩ := ih e1 h1
      obtain ⟨r, hr, he⟩ := blobsStep_inv_full bdle e1 e' n h
      obtain ⟨_, _, _, _, hd⟩ := Slice.slice_inv bdle r _ _ hr
      subst he
      refine ⟨?_, ?_, hc, hp⟩
      · simp only
        rw [recordBytes_append_singleton, hb, hd, List.append_assoc,
          take_append_drop_take _ _ _ (by omega)]
      · simp only [List.length_append, List.length_cons, List.length_nil, hl]
        omega

/-- Re-encoding the bundle of the primary records that the first loop cut from the
buffer behind a header reproduces the buffer up to the end of these records. -/
theorem marshalBundle_of_blobs_loop (buf : Slice) (b0 b1 b2 b3 : Byte) (rest : List Byte)
    (n : Nat) (bdle : Slice) (e' : BlobsBundleV1)
    (hdata : buf.data = b0 :: b1 :: b2 :: b3 :: rest)
    (hn : b0.val * 2 ^ 24 + b1.val * 2 ^ 16 + b2.val * 2 ^ 8 + b3.val = n) (h1 : 1 ≤ n)
    (hbdle : buf.sliceFrom 4 = .ok bdle)
    (hloop : forRange n { Commitments := [], Proofs := [], Blobs := [] } (blobsStep bdle)
      = .ok e') :
    ∃ t, marshalBundle (some e') = .ok t ∧
      t.data = (buf.data ++ buf.spare).take (4 + n * 131072) := by
  have h32 : n < 2 ^ 32 := by
    have h0 := b0.isLt
    have h1 := b1.isLt
    have h2 := b2.isLt
    have h3 := b3.isLt
    omega
  have hlen4 : 4 ≤ buf.len := by
    simp only [Slice.len, hdata, List.length_cons]
    omega
  rw [Slice.sliceFrom_ok buf 4 hlen4] at hbdle
  cases hbdle
  obtain ⟨hb, hl, hc, hp⟩ := blobs_loop_bytes _ n _ e' hloop
  simp only [List.length_nil, Nat.zero_add, recordBytes, List.map_nil, List.flatten_nil,
    List.nil_append] at hb hl
  have hne : e'.Blobs ≠ [] := by
    intro h0
    rw [h0] at hl
    simp at hl
    omega
  obtain ⟨t, ht, htd⟩ := marshalBundle_data e' hne
  refine ⟨t, ht, ?_⟩
  obtain ⟨t0, t1, t2, t3⟩ := toByte_of_bigEndian b0 b1 b2 b3 n hn
  rw [htd, hl, Nat.mod_eq_of_lt h32, t0, t1, t2, t3, hc, hp]
  simp only [recordBytes, hb, List.map_nil, List.flatten_nil, List.append_nil, hdata,
    List.drop_succ_cons, List.drop_zero, List.cons_append, List.nil_append]
  have e4 : 4 + n * 131072 = n * 4096 * 32 + 1 + 1 + 1 + 1 := by omega
  rw [e4, List.take_succ_cons, List.take_succ_cons, List.take_succ_cons, List.take_succ_cons]

theorem zeroBuffer_len_ge (b0 b1 b2 b3 : Byte) (k : Nat) : 4 ≤ (zeroBuffer b0 b1 b2 b3 k).len := by
  unfold Slice.len zeroBuffer Slice.ofBytes
  rw [List.length_cons, List.length_cons, List.length_cons, List.length_cons]
  omega

/-- The buffer behind the header of `zeroBuffer`. -/
theorem zeroBuffer_sliceFrom (b0 b1 b2 b3 : Byte) (k : Nat) :
    (zeroBuffer b0 b1 b2 b3 k).sliceFrom 4
      = .ok ⟨[b0, b1, b2, b3], List.replicate k 0, []⟩ := by
  rw [Slice.sliceFrom_ok _ 4 (zeroBuffer_len_ge b0 b1 b2 b3 k)]
  simp only [zeroBuffer, Slice.ofBytes, List.take_succ_cons, List.take_zero,
    List.drop_succ_cons, List.drop_zero, List.nil_append]

/-- The first loop returns on a region of zero bytes that holds `n` primary records. -/
theorem blobs_loop_zero (pre : List Byte) (n k : Nat) (h : n * (4096 * 32) ≤ k) :
    ∃ e', forRange n { Commitments := [], Proofs := [], Blobs := [] }
      (blobsStep ⟨pre, List.replicate k 0, []⟩) = .ok e' :=
  forRange_ok n _ _ (fun i hi acc => blobsStep_ok _ n i hi
    (by unfold Slice.len; rw [List.length_replicate]; exact h) acc)

/-! ## The encoder in memory refines the encoder on values -/

namespace SliceRef

theorem array_set_self (mem : Memory) (r : SliceRef) (arr : List Byte)
    (h : r.addr < mem.length) (r2 : SliceRef) (ha : r2.addr = r.addr) :
    r2.array (mem.set r.addr arr) = arr := by
  unfold array
  rw [ha, List.getElem?_set_self h]
  rfl

theorem array_append_new (mem : Memory) (arr : List Byte) (r : SliceRef)
    (ha : r.addr = mem.length) : r.array (mem ++ [arr]) = arr := by
  unfold array
  rw [ha, List.getElem?_append_right (Nat.le_refl _)]
  simp

/-- A header reads the same in two memories that agree at its address. -/
theorem toSlice_congr (mem1 mem2 : Memory) (r : SliceRef)
    (h : mem1[r.addr]? = mem2[r.addr]?) : r.toSlice mem1 = r.toSlice mem2 := by
  unfold toSlice bytes array
  rw [h]

theorem bytes_congr (mem1 mem2 : Memory) (r : SliceRef)
    (h : mem1[r.addr]? = mem2[r.addr]?) : r.bytes mem1 = r.bytes mem2 := by
  unfold bytes array
  rw [h]

theorem bytes_length (mem : Memory) (r : SliceRef) (hv : r.Valid mem) :
    (r.bytes mem).length = r.len := by
  obtain ⟨_, h2, h3⟩ := hv
  unfold bytes
  rw [List.length_take, List.length_drop]
  omega

theorem spare_length (mem : Memory) (r : SliceRef) (hv : r.Valid mem) :
    (r.toSlice mem).spare.length = r.cap - r.len := by
  obtain ⟨_, h2, h3⟩ := hv
  unfold toSlice
  simp only [List.length_take, List.length_drop]
  omega

end SliceRef

/-- Writing behind the last element of a valid slice, within its capacity: the
array keeps its length, and the slice reads as the value-level `append` says. -/
theorem Mem.write_spec (arr xs : List Byte) (off len cap : Nat) (hl : len ≤ cap)
    (hc : off + cap ≤ arr.length) (hk : xs.length ≤ cap - len) :
    (arr.take (off + len) ++ xs ++ arr.drop (off + len + xs.length)).length = arr.length ∧
    (arr.take (off + len) ++ xs ++ arr.drop (off + len + xs.length)).take off
      = arr.take off ∧
    ((arr.take (off + len) ++ xs ++ arr.drop (off + len + xs.length)).drop off).take
      (len + xs.length) = (arr.drop off).take len ++ xs ∧
    ((arr.take (off + len) ++ xs ++ arr.drop (off + len + xs.length)).drop
      (off + (len + xs.length))).take (cap - (len + xs.length))
      = ((arr.drop (off + len)).take (cap - len)).drop xs.length := by
  have hA : (arr.take (off + len)).length = off + len := by
    rw [List.length_take]
    omega
  refine ⟨?_, ?_, ?_, ?_⟩
  · simp only [List.length_append, List.length_take, List.length_drop]
    omega
  · rw [List.append_assoc, List.take_append_of_le_length (by omega), List.take_take,
      Nat.min_eq_left (by omega)]
  · have hD : (arr.take (off + len)).drop off = (arr.drop off).take len := by
      rw [List.drop_take]
      congr 1
      omega
    have hDl : ((arr.drop off).take len ++ xs).length = len + xs.length := by
      rw [List.length_append, List.length_take, List.length_drop]
      omega
    rw [List.append_assoc, List.drop_append_of_le_length (by omega), hD, ← List.append_assoc,
      List.take_left' hDl]
  · have hW : (arr.take (off + len) ++ xs).length = off + (len + xs.length) := by
      rw [List.length_append, hA]
      omega
    rw [List.drop_left' hW, List.drop_take, List.drop_drop]
    congr 1
    omega

/-- One `append` in memory: the slice returned reads as the value-level `append`
says, it is valid, no array is freed, and only the array of the slice appended to
can have changed. -/
theorem Mem.append_spec (mem : Memory) (s : SliceRef) (xs : List Byte) (hv : s.Valid mem) :
    (Mem.append mem s xs).2.toSlice (Mem.append mem s xs).1 = (s.toSlice mem).append xs ∧
    (Mem.append mem s xs).2.Valid (Mem.append mem s xs).1 ∧
    mem.length ≤ (Mem.append mem s xs).1.length ∧
    (∀ a, a < mem.length → a ≠ s.addr → (Mem.append mem s xs).1[a]? = mem[a]?) ∧
    ((Mem.append mem s xs).2.addr = s.addr ∨ (Mem.append mem s xs).2.addr = mem.length) := by
  have hsp := SliceRef.spare_length mem s hv
  have hbl := SliceRef.bytes_length mem s hv
  obtain ⟨h1, h2, h3⟩ := hv
  by_cases hk : xs.length ≤ s.cap - s.len
  · obtain ⟨w1, w2, w3, w4⟩ := Mem.write_spec (s.array mem) xs s.off s.len s.cap h2 h3 hk
    have e : Mem.append mem s xs
        = (mem.set s.addr ((s.array mem).take (s.off + s.len) ++ xs
            ++ (s.array mem).drop (s.off + s.len + xs.length)),
          { addr := s.addr, off := s.off, len := s.len + xs.length, cap := s.cap }) := by
      unfold Mem.append
      rw [if_pos hk]
    have harr : SliceRef.array
        (mem.set s.addr ((s.array mem).take (s.off + s.len) ++ xs
          ++ (s.array mem).drop (s.off + s.len + xs.length)))
        { addr := s.addr, off := s.off, len := s.len + xs.length, cap := s.cap }
        = (s.array mem).take (s.off + s.len) ++ xs
          ++ (s.array mem).drop (s.off + s.len + xs.length) :=
      SliceRef.array_set_self mem s _ h1 _ rfl
    have hk2 : xs.length ≤ (s.toSlice mem).spare.length := by omega
    rw [e]
    refine ⟨?_, ⟨?_, ?_, ?_⟩, ?_, ?_, Or.inl rfl⟩
    · unfold Slice.append
      rw [if_pos hk2]
      unfold SliceRef.toSlice SliceRef.bytes
      simp only [harr, w2, w3, w4]
    · show s.addr < (mem.set s.addr _).length
      rw [List.length_set]
      exact h1
    · show s.len + xs.length ≤ s.cap
      omega
    · show s.off + s.cap ≤ (SliceRef.array _ _).length
      rw [harr, w1]
      exact h3
    · show mem.length ≤ (mem.set s.addr _).length
      rw [List.length_set]
    · intro a _ hne
      exact List.getElem?_set_ne (fun h => hne h.symm)
  · have e : Mem.append mem s xs
        = (mem ++ [s.bytes mem ++ xs],
          { addr := mem.length, off := 0, len := s.len + xs.length,
            cap := s.len + xs.length }) := by
      unfold Mem.append
      rw [if_neg hk]
    have harr : SliceRef.array (mem ++ [s.bytes mem ++ xs])
        { addr := mem.length, off := 0, len := s.len + xs.length, cap := s.len + xs.length }
        = s.bytes mem ++ xs :=
      SliceRef.array_append_new mem _ _ rfl
    have hk2 : ¬ xs.length ≤ (s.toSlice mem).spare.length := by omega
    have hl : (s.bytes mem ++ xs).length = s.len + xs.length := by
      rw [List.length_append, hbl]
    rw [e]
    refine ⟨?_, ⟨?_, ?_, ?_⟩, ?_, ?_, Or.inr rfl⟩
    · unfold Slice.append
      rw [if_neg hk2]
      unfold SliceRef.toSlice
      have hb : SliceRef.bytes (mem ++ [s.bytes mem ++ xs])
          { addr := mem.length, off := 0, len := s.len + xs.length,
            cap := s.len + xs.length } = s.bytes mem ++ xs := by
        show List.take (s.len + xs.length) (List.drop 0
          (SliceRef.array (mem ++ [s.bytes mem ++ xs])
            { addr := mem.length, off := 0, len := s.len + xs.length,
              cap := s.len + xs.length })) = _
        rw [harr, List.drop_zero, List.take_of_length_le (by omega)]
      rw [hb, harr]
      show ({ pre := List.take 0 _, data := _,
              spare := List.take (s.len + xs.length - (s.len + xs.length)) _ } : Slice) = _
      rw [Nat.sub_self, List.take_zero, List.take_zero]
    · show mem.length < (mem ++ [s.bytes mem ++ xs]).length
      rw [List.length_append]
      exact Nat.lt_succ_self _
    · exact Nat.le_refl _
    · show 0 + (s.len + xs.length) ≤ (SliceRef.array _ _).length
      rw [harr, hl]
      omega
    · show mem.length ≤ (mem ++ [s.bytes mem ++ xs]).length
      rw [List.length_append]
      exact Nat.le_add_right _ _
    · intro a ha _
      exact List.getElem?_append_left ha

/-- A fresh allocation reads as the value-level `make` and starts the invariant. -/
theorem Mem.make_spec (mem0 : Memory) (c : Nat) :
    (Mem.make mem0 c).2.toSlice (Mem.make mem0 c).1 = Slice.make c ∧
    Mem.Inv mem0.length mem0 (Mem.make mem0 c).1 (Mem.make mem0 c).2 := by
  have harr : SliceRef.array (mem0 ++ [List.replicate c 0])
      { addr := mem0.length, off := 0, len := 0, cap := c } = List.replicate c 0 :=
    SliceRef.array_append_new mem0 _ _ rfl
  refine ⟨?_, ?_, ?_, ⟨?_, ?_, ?_⟩, ?_⟩
  · show ({ pre := List.take 0 (SliceRef.array (mem0 ++ [List.replicate c 0])
              { addr := mem0.length, off := 0, len := 0, cap := c }),
            data := List.take 0 (List.drop 0 (SliceRef.array (mem0 ++ [List.replicate c 0])
              { addr := mem0.length, off := 0, len := 0, cap := c })),
            spare := List.take (c - 0) (List.drop (0 + 0)
              (SliceRef.array (mem0 ++ [List.replicate c 0])
                { addr := mem0.length, off := 0, len := 0, cap := c })) } : Slice) = _
    rw [harr, List.take_zero, List.take_zero, Nat.add_zero, List.drop_zero, Nat.sub_zero,
      List.take_of_length_le (by rw [List.length_replicate])]
    rfl
  · show mem0.length ≤ (mem0 ++ [List.replicate c 0]).length
    rw [List.length_append]
    exact Nat.le_add_right _ _
  · intro a ha
    exact List.getElem?_append_left ha
  · show mem0.length < (mem0 ++ [List.replicate c 0]).length
    rw [List.length_append]
    exact Nat.lt_succ_self _
  · exact Nat.zero_le _
  · show 0 + c ≤ (SliceRef.array (mem0 ++ [List.replicate c 0])
        { addr := mem0.length, off := 0, len := 0, cap := c }).length
    rw [harr, List.length_replicate]
    omega
  · exact Nat.le_refl _

/-- One `append` keeps the invariant and reads as the value-level `append` says. -/
theorem Mem.append_inv (n : Nat) (mem0 mem : Memory) (s : SliceRef) (xs : List Byte)
    (hinv : Mem.Inv n mem0 mem s) :
    (Mem.append mem s xs).2.toSlice (Mem.append mem s xs).1 = (s.toSlice mem).append xs ∧
    Mem.Inv n mem0 (Mem.append mem s xs).1 (Mem.append mem s xs).2 := by
  obtain ⟨i1, i2, i3, i4⟩ := hinv
  obtain ⟨a1, a2, a3, a4, a5⟩ := Mem.append_spec mem s xs i3
  refine ⟨a1, ?_, ?_, a2, ?_⟩
  · omega
  · intro a ha
    rw [a4 a (by omega) (by omega)]
    exact i2 a ha
  · rcases a5 with h | h <;> omega

/-- Appending the records of a collection one by one in memory reads as the
value-level loop over the records as they were before the call. -/
theorem Mem.foldl_append_inv (n : Nat) (mem0 : Memory) (rs : List SliceRef)
    (hrs : ∀ r ∈ rs, r.addr < n) (st : Memory × SliceRef)
    (hinv : Mem.Inv n mem0 st.1 st.2) :
    (rs.foldl (fun st r => Mem.append st.1 st.2 (r.bytes st.1)) st).2.toSlice
        (rs.foldl (fun st r => Mem.append st.1 st.2 (r.bytes st.1)) st).1
      = (rs.map (SliceRef.toSlice mem0)).foldl (fun acc r => acc.append r.data)
          (st.2.toSlice st.1) ∧
    Mem.Inv n mem0 (rs.foldl (fun st r => Mem.append st.1 st.2 (r.bytes st.1)) st).1
      (rs.foldl (fun st r => Mem.append st.1 st.2 (r.bytes st.1)) st).2 := by
  induction rs generalizing st with
  | nil => exact ⟨rfl, hinv⟩
  | cons r rs ih =>
    have hr : r.addr < n := hrs r (List.mem_cons_self _ _)
    have hb : r.bytes st.1 = (r.toSlice mem0).data :=
      SliceRef.bytes_congr st.1 mem0 r (hinv.2.1 r.addr hr)
    obtain ⟨s1, s2⟩ := Mem.append_inv n mem0 st.1 st.2 (r.bytes st.1) hinv
    obtain ⟨t1, t2⟩ := ih (fun x hx => hrs x (List.mem_cons_of_mem _ hx))
      (Mem.append st.1 st.2 (r.bytes st.1)) s2
    refine ⟨?_, t2⟩
    rw [List.foldl_cons, t1, s1, hb]
    rfl

/-- The encoder in memory returns a buffer that reads as the value-level encoder
says for the bundle as it was before the call, and it leaves every array that was
allocated before the call as it was. -/
theorem Mem.marshalBundle_spec (mem0 : Memory) (b : BundleRef)
    (hin : ∀ r ∈ b.records, r.addr < mem0.length) :
    ∃ mem' s', Mem.marshalBundle mem0 (some b) = .ok (mem', s') ∧
      Engine.marshalBundle (some (b.toBundle mem0)) = .ok (s'.toSlice mem') ∧
      mem0.length ≤ mem'.length ∧ ∀ a, a < mem0.length → mem'[a]? = mem0[a]? := by
  have hB : ∀ r ∈ b.Blobs, r.addr < mem0.length := fun r hr =>
    hin r (by simp [BundleRef.records, hr])
  have hC : ∀ r ∈ b.Commitments, r.addr < mem0.length := fun r hr =>
    hin r (by simp [BundleRef.records, hr])
  have hP : ∀ r ∈ b.Proofs, r.addr < mem0.length := fun r hr =>
    hin r (by simp [BundleRef.records, hr])
  by_cases h : b.Blobs.length = 0
  · obtain ⟨m1, m2⟩ := Mem.make_spec mem0 0
    refine ⟨(Mem.make mem0 0).1, (Mem.make mem0 0).2, ?_, ?_, m2.1, m2.2.1⟩
    · simp only [Mem.marshalBundle, if_pos h]
    · have hl : (b.toBundle mem0).Blobs.length = 0 := by
        simp only [BundleRef.toBundle, List.length_map, h]
      rw [m1]
      simp only [Engine.marshalBundle, if_pos hl]
      rfl
  · obtain ⟨m1, m2⟩ := Mem.make_spec mem0
      (b.Blobs.length * (4096 * 32) + b.Blobs.length * 129 * 48 + b.Blobs.length * 48 + 4)
    obtain ⟨u1, u2⟩ := Mem.append_inv mem0.length mem0 _ _
      [toByte ((b.Blobs.length % 2 ^ 32) >>> 24), toByte ((b.Blobs.length % 2 ^ 32) >>> 16),
        toByte ((b.Blobs.length % 2 ^ 32) >>> 8), toByte (b.Blobs.length % 2 ^ 32)] m2
    obtain ⟨v1, v2⟩ := Mem.foldl_append_inv mem0.length mem0 b.Blobs hB _ u2
    obtain ⟨w1, w2⟩ := Mem.foldl_append_inv mem0.length mem0 b.Commitments hC _ v2
    obtain ⟨x1, x2⟩ := Mem.foldl_append_inv mem0.length mem0 b.Proofs hP _ w2
    refine ⟨_, (b.Proofs.foldl (fun st r => Mem.append st.1 st.2 (r.bytes st.1))
      (b.Commitments.foldl (fun st r => Mem.append st.1 st.2 (r.bytes st.1))
        (b.Blobs.foldl (fun st r => Mem.append st.1 st.2 (r.bytes st.1))
          (Mem.append
            (Mem.make mem0 (b.Blobs.length * (4096 * 32) + b.Blobs.length * 129 * 48
              + b.Blobs.length * 48 + 4)).1
            (Mem.make mem0 (b.Blobs.length * (4096 * 32) + b.Blobs.length * 129 * 48
              + b.Blobs.length * 48 + 4)).2
            [toByte ((b.Blobs.length % 2 ^ 32) >>> 24),
              toByte ((b.Blobs.length % 2 ^ 32) >>> 16),
              toByte ((b.Blobs.length % 2 ^ 32) >>> 8),
              toByte (b.Blobs.length % 2 ^ 32)])))).2, ?_, ?_, x2.1, x2.2.1⟩
    · simp only [Mem.marshalBundle, if_neg h, Mem.AppendUint32]
    · have hne : (b.toBundle mem0).Blobs ≠ [] := by
        intro h0
        apply h
        have := congrArg List.length h0
        simpa [BundleRef.toBundle] using this
      rw [marshalBundle_of_ne_nil _ hne, x1, w1, v1, u1, m1]
      simp only [BundleRef.toBundle, List.length_map]
      rfl

/-! ## Properties of the codec -/

/-- C1 (round trip), as the code behaves: for every well-formed bundle with
`1 ≤ n ≤ 512`, `unmarshalBundle` applied to the buffer `marshalBundle` built does
not return a bundle; it panics on a slice expression that is out of range. -/
theorem marshal_then_unmarshal_panics (b : BlobsBundleV1) (n : Nat)
    (hwf : WellFormed b n) (h1 : 1 ≤ n) (h512 : n ≤ 512) :
    (marshalBundle (some b) >>= unmarshalBundle) = .error .sliceBoundsPanic := by
  obtain ⟨s, b0, b1, b2, b3, rest, hs, hd, hn, hlen⟩ :=
    marshalBundle_wellFormed b n hwf h1 (by omega)
  rw [hs]
  exact unmarshalBundle_accepted_panics s b0 b1 b2 b3 rest n hd hn h512 hlen

/-- C1 at the well-formed all-zero bundle of one primary record. -/
theorem marshal_then_unmarshal_panics_witness :
    (marshalBundle (some (zeroBundle 1)) >>= unmarshalBundle) = .error .sliceBoundsPanic :=
  marshal_then_unmarshal_panics (zeroBundle 1) 1 (zeroBundle_wellFormed 1)
    (Nat.le_refl 1) (by decide)

/-- C2 (encode layout): for a bundle with at least one and fewer than `2^32` primary
records, whatever its commitment and proof records, `marshalBundle` returns a buffer
that consists of four bytes whose big-endian value is the number of primary records,
followed by the primary records, the commitment records and the proof records, each
collection concatenated in order. -/
theorem marshalBundle_layout (b : BlobsBundleV1) (hne : b.Blobs ≠ [])
    (h32 : b.Blobs.length < 2 ^ 32) :
    ∃ (s : Slice) (h0 h1 h2 h3 : Byte), marshalBundle (some b) = .ok s ∧
      h0.val * 2 ^ 24 + h1.val * 2 ^ 16 + h2.val * 2 ^ 8 + h3.val = b.Blobs.length ∧
      s.data = [h0, h1, h2, h3] ++ recordBytes b.Blobs ++ recordBytes b.Commitments
        ++ recordBytes b.Proofs := by
  obtain ⟨s, hs, hd⟩ := marshalBundle_data b hne
  rw [Nat.mod_eq_of_lt h32] at hd
  exact ⟨s, _, _, _, _, hs, toByte_bigEndian _ h32, hd⟩

/-- C2 at a bundle whose collections disagree in number and size. -/
theorem marshalBundle_layout_witness :
    ∃ (s : Slice) (h0 h1 h2 h3 : Byte),
      marshalBundle (some ⟨[], [Slice.ofBytes [7], Slice.ofBytes [8, 9]],
        [Slice.ofBytes [1, 2]]⟩) = .ok s ∧
      h0.val * 2 ^ 24 + h1.val * 2 ^ 16 + h2.val * 2 ^ 8 + h3.val = 1 ∧
      s.data = [h0, h1, h2, h3] ++ [1, 2] ++ [] ++ [7, 8, 9] :=
  marshalBundle_layout ⟨[], [Slice.ofBytes [7], Slice.ofBytes [8, 9]],
    [Slice.ofBytes [1, 2]]⟩ (by decide) (by decide)

/-- C3 (decode record boundaries), as the code behaves: on every buffer whose header
count `n` lies in `1 .. 512` and whose length is exactly
`4 + n*131072 + n*48 + 129*n*48`, `unmarshalBundle` panics and returns no bundle. -/
theorem unmarshalBundle_exact_length_panics (pre spare rest : List Byte)
    (b0 b1 b2 b3 : Byte) (n : Nat)
    (hn : b0.val * 2 ^ 24 + b1.val * 2 ^ 16 + b2.val * 2 ^ 8 + b3.val = n)
    (h512 : 1 ≤ n ∧ n ≤ 512)
    (hlen : (b0 :: b1 :: b2 :: b3 :: rest).length = 4 + n * 131072 + n * 48 + 129 * n * 48) :
    unmarshalBundle ⟨pre, b0 :: b1 :: b2 :: b3 :: rest, spare⟩
      = .error .sliceBoundsPanic :=
  unmarshalBundle_accepted_panics _ b0 b1 b2 b3 rest n rfl hn h512.2
    (by simp only [List.length_cons] at hlen; omega)

/-- C3 at the all-zero buffer with header count 2. -/
theorem unmarshalBundle_exact_length_panics_witness :
    unmarshalBundle (zeroBuffer 0 0 0 2 274624) = .error .sliceBoundsPanic :=
  unmarshalBundle_exact_length_panics [] [] (List.replicate 274624 0) 0 0 0 2 2
    (by decide) (by decide)
    (by rw [List.length_cons, List.length_cons, List.length_cons, List.length_cons,
      List.length_replicate])

/-- C4 (oversize rejection): a buffer of at least four bytes whose first four bytes,
read big-endian, exceed 512 is rejected with `TooLargeRequest`, whatever follows the
header and whatever the length of the buffer. -/
theorem unmarshalBundle_too_large (pre spare rest : List Byte) (b0 b1 b2 b3 : Byte)
    (hn : 512 < b0.val * 2 ^ 24 + b1.val * 2 ^ 16 + b2.val * 2 ^ 8 + b3.val) :
    unmarshalBundle ⟨pre, b0 :: b1 :: b2 :: b3 :: rest, spare⟩
      = .error .TooLargeRequest := by
  rw [unmarshalBundle_of_header _ b0 b1 b2 b3 rest rfl, if_pos hn]

/-- C4 at a buffer with header count 513 and one trailing byte. -/
theorem unmarshalBundle_too_large_witness :
    unmarshalBundle ⟨[], [0, 0, 2, 1, 7], []⟩ = .error .TooLargeRequest :=
  unmarshalBundle_too_large [] [] [7] 0 0 2 1 (by decide)

/-- C5 (length rejection): a buffer of at least four bytes whose header count `n` is
at most 512 and whose length is not `4 + n*131072 + n*48 + 129*n*48` is rejected
with the bad-bundle-length error. -/
theorem unmarshalBundle_bad_length (pre spare rest : List Byte) (b0 b1 b2 b3 : Byte)
    (n : Nat) (hn : b0.val * 2 ^ 24 + b1.val * 2 ^ 16 + b2.val * 2 ^ 8 + b3.val = n)
    (h512 : n ≤ 512)
    (hlen : (b0 :: b1 :: b2 :: b3 :: rest).length ≠ 4 + n * 131072 + n * 48 + 129 * n * 48) :
    unmarshalBundle ⟨pre, b0 :: b1 :: b2 :: b3 :: rest, spare⟩
      = .error .badBundleLength := by
  rw [unmarshalBundle_of_header _ b0 b1 b2 b3 rest rfl, hn, if_neg (by omega),
    if_pos (by simp only [List.length_cons] at hlen; omega)]

/-- C5 at the all-zero buffer with header count 1 that is one byte short. -/
theorem unmarshalBundle_bad_length_witness :
    unmarshalBundle (zeroBuffer 0 0 0 1 137311) = .error .badBundleLength :=
  unmarshalBundle_bad_length [] [] (List.replicate 137311 0) 0 0 0 1 1
    (by decide) (by decide)
    (by rw [List.length_cons, List.length_cons, List.length_cons, List.length_cons,
      List.length_replicate]; decide)

/-- C6 (no out-of-bounds slice on accepted input), as the code behaves: on every
buffer that passes both checks with a header count `n` in `1 .. 512` the call
panics, because a slice expression is out of range. With `bdle` the buffer behind
the header, for `n ≤ 21` the low bound of `bdle[(length+1)*4096*32:]` exceeds
`len(bdle)`, and for `n ≥ 22` that expression succeeds and the loop that follows
evaluates, at `i = 2`, `bdle[i*48:(i+1*48)]` with low bound 96 above high bound 50. -/
theorem unmarshalBundle_slice_out_of_range (pre spare rest : List Byte)
    (b0 b1 b2 b3 : Byte) (n : Nat)
    (hn : b0.val * 2 ^ 24 + b1.val * 2 ^ 16 + b2.val * 2 ^ 8 + b3.val = n)
    (h512 : 1 ≤ n ∧ n ≤ 512)
    (hlen : (b0 :: b1 :: b2 :: b3 :: rest).length = 4 + n * 131072 + n * 48 + 129 * n * 48) :
    unmarshalBundle ⟨pre, b0 :: b1 :: b2 :: b3 :: rest, spare⟩ = .error .sliceBoundsPanic ∧
    ∃ bdle, Slice.sliceFrom ⟨pre, b0 :: b1 :: b2 :: b3 :: rest, spare⟩ 4 = .ok bdle ∧
      (n ≤ 21 → bdle.len < (n + 1) * 4096 * 32 ∧
        bdle.sliceFrom ((n + 1) * 4096 * 32) = .error .sliceBoundsPanic) ∧
      (22 ≤ n → ∃ bdle', bdle.sliceFrom ((n + 1) * 4096 * 32) = .ok bdle' ∧
        2 + 1 * 48 < 2 * 48 ∧
        bdle'.slice (2 * 48) (2 + 1 * 48) = .error .sliceBoundsPanic) := by
  have hr : rest.length = n * 131072 + n * 48 + 129 * n * 48 := by
    simp only [List.length_cons] at hlen
    omega
  refine ⟨unmarshalBundle_accepted_panics _ b0 b1 b2 b3 rest n rfl hn h512.2 hr,
    ⟨pre ++ [b0, b1, b2, b3], rest, spare⟩, ?_, ?_, ?_⟩
  · rw [Slice.sliceFrom_ok _ 4 (by simp only [Slice.len, List.length_cons]; omega)]
    rfl
  · intro h21
    have hl : Slice.len ⟨pre ++ [b0, b1, b2, b3], rest, spare⟩ < (n + 1) * 4096 * 32 := by
      simp only [Slice.len]
      omega
    exact ⟨hl, Slice.sliceFrom_error _ _ hl⟩
  · intro h22
    exact ⟨_, Slice.sliceFrom_ok _ _ (by simp only [Slice.len]; omega), by decide,
      Slice.slice_error _ _ _ (by omega)⟩

/-- C6 at the all-zero buffer with header count 22. -/
theorem unmarshalBundle_slice_out_of_range_witness :
    unmarshalBundle (zeroBuffer 0 0 0 22 3020864) = .error .sliceBoundsPanic ∧
    ∃ bdle, (zeroBuffer 0 0 0 22 3020864).sliceFrom 4 = .ok bdle ∧
      (22 ≤ 21 → bdle.len < (22 + 1) * 4096 * 32 ∧
        bdle.sliceFrom ((22 + 1) * 4096 * 32) = .error .sliceBoundsPanic) ∧
      (22 ≤ 22 → ∃ bdle', bdle.sliceFrom ((22 + 1) * 4096 * 32) = .ok bdle' ∧
        2 + 1 * 48 < 2 * 48 ∧
        bdle'.slice (2 * 48) (2 + 1 * 48) = .error .sliceBoundsPanic) :=
  unmarshalBundle_slice_out_of_range [] [] (List.replicate 3020864 0) 0 0 0 22 22
    (by decide) (by decide)
    (by rw [List.length_cons, List.length_cons, List.length_cons, List.length_cons,
      List.length_replicate])

/-- C7 (empty buffer): `unmarshalBundle` applied to a buffer of length zero returns,
without error, a bundle whose three collections are empty. -/
theorem unmarshalBundle_empty (pre spare : List Byte) :
    unmarshalBundle ⟨pre, [], spare⟩
      = .ok { Commitments := [], Proofs := [], Blobs := [] } := rfl

/-- C8 (empty-bundle encode): for a bundle without primary records `marshalBundle`
returns a buffer of length zero, whatever its commitment and proof collections. -/
theorem marshalBundle_no_blobs (commitments proofs : List Slice) :
    marshalBundle (some { Commitments := commitments, Proofs := proofs, Blobs := [] })
      = .ok { pre := [], data := [], spare := [] } := rfl

/-- C9 (encoded length): for a well-formed bundle of `n ≥ 1` primary records the
buffer `marshalBundle` returns has length `4 + n*131072 + n*48 + 129*n*48`, which is
the capacity it was allocated with (no capacity is left over) and the length the
length check of `unmarshalBundle` compares with for the count `n`. -/
theorem marshalBundle_length (b : BlobsBundleV1) (n : Nat) (hwf : WellFormed b n)
    (h1 : 1 ≤ n) :
    ∃ s, marshalBundle (some b) = .ok s ∧
      s.len = 4 + n * 131072 + n * 48 + 129 * n * 48 ∧
      s.len = (Slice.make (b.Blobs.length * (4096 * 32) + b.Blobs.length * 129 * 48
        + b.Blobs.length * 48 + 4)).cap ∧
      s.cap = s.len ∧
      s.len = n * (4096 * 32) + n * 129 * 48 + n * 48 + 4 := by
  obtain ⟨s, hs, hsp⟩ := marshalBundle_spare b n hwf h1
  have hne : b.Blobs ≠ [] := by
    intro h0
    have := hwf.1.1
    rw [h0] at this
    simp at this
    omega
  obtain ⟨s', hs', hd⟩ := marshalBundle_data b hne
  rw [hs] at hs'
  cases hs'
  have lb := recordBytes_length b.Blobs 131072 hwf.1.2
  have lc := recordBytes_length b.Commitments 48 hwf.2.1.2
  have lp := recordBytes_length b.Proofs 48 hwf.2.2.2
  rw [hwf.1.1] at lb
  rw [hwf.2.1.1] at lc
  rw [hwf.2.2.1] at lp
  have hl : s.len = 4 + n * 131072 + n * 48 + 129 * n * 48 := by
    simp only [Slice.len, hd, List.length_append, List.length_cons, List.length_nil, lb, lc, lp]
  refine ⟨s, hs, hl, ?_, ?_, ?_⟩
  · simp only [Slice.make, Slice.cap, List.length_replicate, List.length_nil, hwf.1.1, hl]
    omega
  · simp only [Slice.cap, Slice.len, hsp, List.length_nil, Nat.add_zero]
  · omega

/-- C9 at the well-formed all-zero bundle of one primary record. -/
theorem marshalBundle_length_witness :
    ∃ s, marshalBundle (some (zeroBundle 1)) = .ok s ∧
      s.len = 4 + 1 * 131072 + 1 * 48 + 129 * 1 * 48 ∧
      s.len = (Slice.make ((zeroBundle 1).Blobs.length * (4096 * 32)
        + (zeroBundle 1).Blobs.length * 129 * 48 + (zeroBundle 1).Blobs.length * 48 + 4)).cap ∧
      s.cap = s.len ∧
      s.len = 1 * (4096 * 32) + 1 * 129 * 48 + 1 * 48 + 4 :=
  marshalBundle_length (zeroBundle 1) 1 (zeroBundle_wellFormed 1) (Nat.le_refl 1)

/-- C10 (truncated header), as the code behaves: on a non-empty buffer whose capacity
is below four bytes, so in particular of length 1, 2 or 3, `unmarshalBundle` panics
on the expression `bdle[:4]` instead of returning the bad-bundle-length error. -/
theorem unmarshalBundle_short_buffer_panics (s : Slice) (hlen : 1 ≤ s.len)
    (hcap : s.cap < 4) :
    unmarshalBundle s = .error .sliceBoundsPanic := by
  unfold unmarshalBundle
  rw [if_neg (by omega)]
  unfold Slice.sliceTo
  rw [Slice.slice_error s 0 4 (by omega)]
  rfl

/-- C10 at the buffer of the single byte zero, of capacity one. -/
theorem unmarshalBundle_short_buffer_panics_witness :
    unmarshalBundle ⟨[], [0], []⟩ = .error .sliceBoundsPanic :=
  unmarshalBundle_short_buffer_panics ⟨[], [0], []⟩ (by decide) (by decide)

/-- C12 (required fields of the envelope), amended: when `json.Unmarshal` decodes the
input without error, `UnmarshalJSON` returns the error that names `executionPayload` if the decoded
payload is `nil`, the error that names `blockValue` if the payload is there and the
decoded value amount is `nil`, and `nil` if both are there, in which case the
receiver's `ExecutionPayload`, `BlockValue` and `BlobsBundle` are the decoded ones. -/
theorem UnmarshalJSON_required_fields {ED JE : Type}
    (jsonUnmarshal : Slice → Except JE (UnmarshalJSON.ExecutionPayloadEnvelope ED))
    (e : ExecutionPayloadEnvelopeV2 ED) (input : Slice)
    (dec : UnmarshalJSON.ExecutionPayloadEnvelope ED)
    (hdec : jsonUnmarshal input = .ok dec) :
    (dec.ExecutionPayload = none →
      (ExecutionPayloadEnvelopeV2.UnmarshalJSON jsonUnmarshal e input).2
        = some (.new missingExecutionPayload)) ∧
    (dec.ExecutionPayload ≠ none → dec.BlockValue = none →
      (ExecutionPayloadEnvelopeV2.UnmarshalJSON jsonUnmarshal e input).2
        = some (.new missingBlockValue)) ∧
    (dec.ExecutionPayload ≠ none → dec.BlockValue ≠ none →
      (ExecutionPayloadEnvelopeV2.UnmarshalJSON jsonUnmarshal e input).2 = none ∧
      (ExecutionPayloadEnvelopeV2.UnmarshalJSON jsonUnmarshal e input).1.ExecutionPayload
        = dec.ExecutionPayload ∧
      (ExecutionPayloadEnvelopeV2.UnmarshalJSON jsonUnmarshal e input).1.BlockValue
        = dec.BlockValue ∧
      (ExecutionPayloadEnvelopeV2.UnmarshalJSON jsonUnmarshal e input).1.BlobsBundle
        = dec.BlobsBundle) := by
  obtain ⟨payload, value, ovr, bundle⟩ := dec
  unfold ExecutionPayloadEnvelopeV2.UnmarshalJSON
  rw [hdec]
  cases payload with
  | none => exact ⟨fun _ => rfl, fun h => absurd rfl h, fun h => absurd rfl h⟩
  | some p =>
    cases value with
    | none => exact ⟨fun h => (by cases h), fun _ _ => rfl, fun _ h => absurd rfl h⟩
    | some v =>
      refine ⟨fun h => (by cases h), fun _ h => (by cases h), fun _ _ => ?_⟩
      cases ovr <;> exact ⟨rfl, rfl, rfl, rfl⟩

/-- C12, amended, at a decoded object with a payload and no value amount. -/
theorem UnmarshalJSON_required_fields_witness :
    (ExecutionPayloadEnvelopeV2.UnmarshalJSON (constDecoder decodedNoBlockValue)
      setReceiver (Slice.ofBytes [])).2 = some (.new missingBlockValue) :=
  (UnmarshalJSON_required_fields (constDecoder decodedNoBlockValue) setReceiver
    (Slice.ofBytes []) decodedNoBlockValue rfl).2.1 (by decide) rfl

/-- C12 (required fields of the envelope), as stated, fails: on a syntactically
valid JSON object in which both required members are present and decodable, and the
member of the override flag is a number, `UnmarshalJSON` does not return `nil`; it
returns the error of `json.Unmarshal`. -/
theorem UnmarshalJSON_valid_object_rejected :
    objectWrongFlag.executionPayload = .value 7 ∧
    objectWrongFlag.blockValue = .value 1 ∧
    (ExecutionPayloadEnvelopeV2.UnmarshalJSON (objectDecoder objectWrongFlag)
      setReceiver (Slice.ofBytes [])).2 = some (.json .typeError) ∧
    ¬ (ExecutionPayloadEnvelopeV2.UnmarshalJSON (objectDecoder objectWrongFlag)
      setReceiver (Slice.ofBytes [])).2 = none := by
  decide

/-- C13 (override default), as stated, fails: a receiver whose override flag is
`true`, decoding an object with both required fields and no override flag, reports
success and its override flag is still `true`. -/
theorem UnmarshalJSON_override_not_reset :
    (ExecutionPayloadEnvelopeV2.UnmarshalJSON (constDecoder decodedNoOverride)
      setReceiver (Slice.ofBytes [])).2 = none ∧
    ¬ (ExecutionPayloadEnvelopeV2.UnmarshalJSON (constDecoder decodedNoOverride)
      setReceiver (Slice.ofBytes [])).1.Override = false := by
  decide

/-- C13 (override default), amended: when `json.Unmarshal` decodes the input to an
object with both required fields and no override flag, `UnmarshalJSON` succeeds and
the receiver's override flag is the one it had before the call. -/
theorem UnmarshalJSON_override_kept {ED JE : Type}
    (jsonUnmarshal : Slice → Except JE (UnmarshalJSON.ExecutionPayloadEnvelope ED))
    (e : ExecutionPayloadEnvelopeV2 ED) (input : Slice)
    (dec : UnmarshalJSON.ExecutionPayloadEnvelope ED)
    (hdec : jsonUnmarshal input = .ok dec)
    (hp : dec.ExecutionPayload ≠ none) (hv : dec.BlockValue ≠ none)
    (ho : dec.Override = none) :
    (ExecutionPayloadEnvelopeV2.UnmarshalJSON jsonUnmarshal e input).2 = none ∧
    (ExecutionPayloadEnvelopeV2.UnmarshalJSON jsonUnmarshal e input).1.Override
      = e.Override := by
  obtain ⟨payload, value, ovr, bundle⟩ := dec
  simp only at hp hv ho
  subst ho
  unfold ExecutionPayloadEnvelopeV2.UnmarshalJSON
  rw [hdec]
  cases payload with
  | none => exact absurd rfl hp
  | some p =>
    cases value with
    | none => exact absurd rfl hv
    | some v => exact ⟨rfl, rfl⟩

/-- C13, amended, at a receiver whose override flag is `true`. -/
theorem UnmarshalJSON_override_kept_witness :
    (ExecutionPayloadEnvelopeV2.UnmarshalJSON (constDecoder decodedNoOverride)
      setReceiver (Slice.ofBytes [])).2 = none ∧
    (ExecutionPayloadEnvelopeV2.UnmarshalJSON (constDecoder decodedNoOverride)
      setReceiver (Slice.ofBytes [])).1.Override = true :=
  UnmarshalJSON_override_kept (constDecoder decodedNoOverride) setReceiver
    (Slice.ofBytes []) decodedNoOverride rfl (by decide) (by decide) rfl

/-- On values: for an envelope with a blobs bundle, `ExecutionPayloadEnvelopeToV2`
returns the envelope with the same payload, value amount and override flag whose
`BlobsBundle` is the buffer `marshalBundle` returns for the bundle. -/
theorem ExecutionPayloadEnvelopeToV2_fields {ED : Type} (bd : ExecutionPayloadEnvelope ED)
    (bundle : BlobsBundleV1) (hb : bd.BlobsBundle = some bundle) :
    ∃ s, marshalBundle (some bundle) = .ok s ∧
      ExecutionPayloadEnvelopeToV2 (some bd) = .ok
        { ExecutionPayload := bd.ExecutionPayload
          BlockValue := bd.BlockValue
          BlobsBundle := s
          Override := bd.Override } := by
  obtain ⟨s, hs⟩ := marshalBundle_some bundle
  refine ⟨s, hs, ?_⟩
  unfold ExecutionPayloadEnvelopeToV2
  simp only [hb, hs]

/-- C14 (envelope conversion): for an envelope `bd` with a blobs bundle whose records
lie in allocated arrays, `ExecutionPayloadEnvelopeToV2` returns an envelope with the
payload, value amount and override flag of `bd` whose `BlobsBundle` is the buffer
`marshalBundle` returns for the bundle of `bd`; and `bd` is not modified: after the
call the struct is the same, every array allocated before the call holds the same
bytes, and so the envelope reads the same, records included. -/
theorem ExecutionPayloadEnvelopeToV2_frame {ED : Type} (mem : Memory) (bd : EnvelopeRef ED)
    (bundle : BundleRef) (hb : bd.BlobsBundle = some bundle)
    (hin : ∀ r ∈ bundle.records, r.addr < mem.length) :
    ∃ mem' res,
      Mem.ExecutionPayloadEnvelopeToV2 mem (some bd) = .ok (mem', bd, res) ∧
      res.ExecutionPayload = bd.ExecutionPayload ∧
      res.BlockValue = bd.BlockValue ∧
      res.Override = bd.Override ∧
      marshalBundle (some (bundle.toBundle mem)) = .ok (res.BlobsBundle.toSlice mem') ∧
      (∀ a, a < mem.length → mem'[a]? = mem[a]?) ∧
      bd.toEnvelope mem' = bd.toEnvelope mem ∧
      ExecutionPayloadEnvelopeToV2 (some (bd.toEnvelope mem)) = .ok (res.toEnvelope mem') := by
  obtain ⟨mem', s', h1, h2, _, h4⟩ := Mem.marshalBundle_spec mem bundle hin
  have hrec : ∀ r ∈ bundle.records, r.toSlice mem' = r.toSlice mem := fun r hr =>
    SliceRef.toSlice_congr mem' mem r (h4 r.addr (hin r hr))
  have hbun : bundle.toBundle mem' = bundle.toBundle mem := by
    unfold BundleRef.toBundle
    rw [List.map_congr_left (fun r hr => hrec r (by simp [BundleRef.records, hr])),
      List.map_congr_left (fun r hr => hrec r (by simp [BundleRef.records, hr])),
      List.map_congr_left (fun r hr => hrec r (by simp [BundleRef.records, hr]))]
  refine ⟨mem', EnvelopeV2Ref.mk bd.ExecutionPayload bd.BlockValue s' bd.Override, ?_, rfl, rfl,
    rfl, h2, h4, ?_, ?_⟩
  · unfold Mem.ExecutionPayloadEnvelopeToV2
    simp only [hb, h1]
  · unfold EnvelopeRef.toEnvelope
    rw [hb]
    simp only [Option.map_some', hbun]
  · have hb2 : (bd.toEnvelope mem).BlobsBundle = some (bundle.toBundle mem) := by
      unfold EnvelopeRef.toEnvelope
      rw [hb]
      rfl
    unfold ExecutionPayloadEnvelopeToV2
    simp only [hb2, h2]
    rfl

/-- C14 at an envelope whose bundle has a primary record and a commitment record in
one array of the memory. -/
theorem ExecutionPayloadEnvelopeToV2_frame_witness :
    ∃ mem' res,
      Mem.ExecutionPayloadEnvelopeToV2 sampleMemory (some sampleEnvelope)
        = .ok (mem', sampleEnvelope, res) ∧
      res.ExecutionPayload = sampleEnvelope.ExecutionPayload ∧
      res.BlockValue = sampleEnvelope.BlockValue ∧
      res.Override = sampleEnvelope.Override ∧
      marshalBundle (some (sampleBundleRef.toBundle sampleMemory))
        = .ok (res.BlobsBundle.toSlice mem') ∧
      (∀ a, a < sampleMemory.length → mem'[a]? = sampleMemory[a]?) ∧
      sampleEnvelope.toEnvelope mem' = sampleEnvelope.toEnvelope sampleMemory ∧
      ExecutionPayloadEnvelopeToV2 (some (sampleEnvelope.toEnvelope sampleMemory))
        = .ok (res.toEnvelope mem') :=
  ExecutionPayloadEnvelopeToV2_frame sampleMemory sampleEnvelope sampleBundleRef rfl
    (by decide)

/-- C15 (no upper bound on encode): for a well-formed bundle of `n` primary records
with `512 < n < 2^32`, `marshalBundle` returns a buffer whose header count is `n`,
and `unmarshalBundle` rejects that buffer with `TooLargeRequest`. -/
theorem marshalBundle_beyond_limit (b : BlobsBundleV1) (n : Nat) (hwf : WellFormed b n)
    (h512 : 512 < n) (h32 : n < 2 ^ 32) :
    ∃ (s : Slice) (b0 b1 b2 b3 : Byte) (rest : List Byte),
      marshalBundle (some b) = .ok s ∧
      s.data = b0 :: b1 :: b2 :: b3 :: rest ∧
      b0.val * 2 ^ 24 + b1.val * 2 ^ 16 + b2.val * 2 ^ 8 + b3.val = n ∧
      unmarshalBundle s = .error .TooLargeRequest := by
  obtain ⟨s, b0, b1, b2, b3, rest, hs, hd, hn, _⟩ :=
    marshalBundle_wellFormed b n hwf (by omega) h32
  refine ⟨s, b0, b1, b2, b3, rest, hs, hd, hn, ?_⟩
  rw [unmarshalBundle_of_header s b0 b1 b2 b3 rest hd, hn, if_pos h512]

/-- C15 at the well-formed all-zero bundle of 513 primary records. -/
theorem marshalBundle_beyond_limit_witness :
    ∃ (s : Slice) (b0 b1 b2 b3 : Byte) (rest : List Byte),
      marshalBundle (some (zeroBundle 513)) = .ok s ∧
      s.data = b0 :: b1 :: b2 :: b3 :: rest ∧
      b0.val * 2 ^ 24 + b1.val * 2 ^ 16 + b2.val * 2 ^ 8 + b3.val = 513 ∧
      unmarshalBundle s = .error .TooLargeRequest :=
  marshalBundle_beyond_limit (zeroBundle 513) 513 (zeroBundle_wellFormed 513)
    (by decide) (by decide)

/-- C16 (accepted-size ceiling): a buffer that `unmarshalBundle` rejects neither
with `TooLargeRequest` nor with the bad-bundle-length error has at most
`512*131072 + 512*48 + 512*129*48 + 4 = 70303748` bytes. -/
theorem unmarshalBundle_size_ceiling (s : Slice)
    (hsize : unmarshalBundle s ≠ .error .TooLargeRequest)
    (hlength : unmarshalBundle s ≠ .error .badBundleLength) :
    s.len ≤ 512 * 131072 + 512 * 48 + 512 * 129 * 48 + 4 ∧
    512 * 131072 + 512 * 48 + 512 * 129 * 48 + 4 = 70303748 := by
  refine ⟨?_, by decide⟩
  rcases unmarshalBundle_outcome s with ⟨h0, _⟩ | h1 | h1 | ⟨hle, _⟩
  · omega
  · exact absurd h1 hsize
  · exact absurd h1 hlength
  · omega

/-- C16 at the all-zero buffer with header count 512 and the exact length for it,
the longest buffer that passes both checks. -/
theorem unmarshalBundle_size_ceiling_witness :
    (zeroBuffer 0 0 2 0 70303744).len ≤ 512 * 131072 + 512 * 48 + 512 * 129 * 48 + 4 ∧
    512 * 131072 + 512 * 48 + 512 * 129 * 48 + 4 = 70303748 :=
  have hp : unmarshalBundle (zeroBuffer 0 0 2 0 70303744) = .error .sliceBoundsPanic :=
    unmarshalBundle_accepted_panics _ 0 0 2 0 (List.replicate 70303744 0) 512 rfl
      (by decide) (by decide) (by rw [List.length_replicate])
  unmarshalBundle_size_ceiling (zeroBuffer 0 0 2 0 70303744)
    (fun h => by rw [hp] at h; cases h) (fun h => by rw [hp] at h; cases h)

/-- C17 (encode is injective on well-formed bundles): two well-formed bundles, of
counts below `2^32`, for which `marshalBundle` returns buffers with the same
contents have the same primary, commitment and proof records, in the same order. -/
theorem marshalBundle_injective (b1 b2 : BlobsBundleV1) (n1 n2 : Nat)
    (hw1 : WellFormed b1 n1) (hw2 : WellFormed b2 n2)
    (h1 : n1 < 2 ^ 32) (h2 : n2 < 2 ^ 32)
    (h : (marshalBundle (some b1)).map Slice.data = (marshalBundle (some b2)).map Slice.data) :
    b1.Blobs.map Slice.data = b2.Blobs.map Slice.data ∧
    b1.Commitments.map Slice.data = b2.Commitments.map Slice.data ∧
    b1.Proofs.map Slice.data = b2.Proofs.map Slice.data := by
  obtain ⟨s1, hs1⟩ := marshalBundle_some b1
  obtain ⟨s2, hs2⟩ := marshalBundle_some b2
  rw [hs1, hs2] at h
  have hd : s1.data = s2.data := by
    simp only [Except.map, Except.ok.injEq] at h
    exact h
  by_cases hz1 : n1 = 0
  · subst hz1
    obtain ⟨e1, e2, e3⟩ := WellFormed.zero b1 hw1
    by_cases hz2 : n2 = 0
    · subst hz2
      obtain ⟨f1, f2, f3⟩ := WellFormed.zero b2 hw2
      rw [e1, e2, e3, f1, f2, f3]
      exact ⟨rfl, rfl, rfl⟩
    · obtain ⟨t, _, _, _, _, rest, ht, htd, _, _⟩ :=
        marshalBundle_wellFormed b2 n2 hw2 (by omega) h2
      rw [hs2] at ht
      cases ht
      have hs1' : marshalBundle (some b1) = .ok { pre := [], data := [], spare := [] } := by
        simp only [marshalBundle, e1, List.length_nil, if_pos]
      rw [hs1] at hs1'
      cases hs1'
      rw [htd] at hd
      cases hd
  · by_cases hz2 : n2 = 0
    · subst hz2
      obtain ⟨f1, _, _⟩ := WellFormed.zero b2 hw2
      obtain ⟨t, _, _, _, _, rest, ht, htd, _, _⟩ :=
        marshalBundle_wellFormed b1 n1 hw1 (by omega) h1
      rw [hs1] at ht
      cases ht
      have hs2' : marshalBundle (some b2) = .ok { pre := [], data := [], spare := [] } := by
        simp only [marshalBundle, f1, List.length_nil, if_pos]
      rw [hs2] at hs2'
      cases hs2'
      rw [htd] at hd
      cases hd
    · exact marshalBundle_data_inj b1 b2 n1 n2 hw1 hw2 (by omega) (by omega) h1 h2 s1 s2
        hs1 hs2 hd

/-- C17 at two well-formed bundles of one primary record whose records have the same
contents and lie at different places of their backing arrays. -/
theorem marshalBundle_injective_witness :
    (zeroBundle 1).Blobs.map Slice.data = (innerZeroBundle 1).Blobs.map Slice.data ∧
    (zeroBundle 1).Commitments.map Slice.data
      = (innerZeroBundle 1).Commitments.map Slice.data ∧
    (zeroBundle 1).Proofs.map Slice.data = (innerZeroBundle 1).Proofs.map Slice.data :=
  marshalBundle_injective (zeroBundle 1) (innerZeroBundle 1) 1 1 (zeroBundle_wellFormed 1)
    (innerZeroBundle_wellFormed 1) (by decide) (by decide)
    (marshalBundle_data_congr (zeroBundle 1) (innerZeroBundle 1)
      (by simp only [zeroBundle, innerZeroBundle, zeroRecord, innerZeroRecord, Slice.ofBytes,
        List.map_replicate])
      (by simp only [zeroBundle, innerZeroBundle, zeroRecord, innerZeroRecord, Slice.ofBytes,
        List.map_replicate])
      (by simp only [zeroBundle, innerZeroBundle, zeroRecord, innerZeroRecord, Slice.ofBytes,
        List.map_replicate]))

/-- C19 (atomic failure of envelope decoding), as stated, fails: decoding an object
with a payload and no value amount returns an error, and the receiver's
`ExecutionPayload` is no longer the one it had before the call. -/
theorem UnmarshalJSON_error_not_atomic :
    (ExecutionPayloadEnvelopeV2.UnmarshalJSON (constDecoder decodedNoBlockValue)
      setReceiver (Slice.ofBytes [])).2 = some (.new missingBlockValue) ∧
    ¬ (ExecutionPayloadEnvelopeV2.UnmarshalJSON (constDecoder decodedNoBlockValue)
      setReceiver (Slice.ofBytes [])).1.ExecutionPayload = setReceiver.ExecutionPayload := by
  decide

/-- C19 (failure of envelope decoding), amended: when `UnmarshalJSON` returns an
error, the receiver's `BlockValue`, `BlobsBundle` and `Override` are the ones it had
before the call; its `ExecutionPayload` is too unless the error is the one for the
missing `blockValue`, and then it is the decoded payload. -/
theorem UnmarshalJSON_error_frame {ED JE : Type}
    (jsonUnmarshal : Slice → Except JE (UnmarshalJSON.ExecutionPayloadEnvelope ED))
    (e : ExecutionPayloadEnvelopeV2 ED) (input : Slice) (err : UnmarshalError JE)
    (herr : (ExecutionPayloadEnvelopeV2.UnmarshalJSON jsonUnmarshal e input).2 = some err) :
    (ExecutionPayloadEnvelopeV2.UnmarshalJSON jsonUnmarshal e input).1.BlockValue
      = e.BlockValue ∧
    (ExecutionPayloadEnvelopeV2.UnmarshalJSON jsonUnmarshal e input).1.BlobsBundle
      = e.BlobsBundle ∧
    (ExecutionPayloadEnvelopeV2.UnmarshalJSON jsonUnmarshal e input).1.Override
      = e.Override ∧
    (err ≠ .new missingBlockValue →
      (ExecutionPayloadEnvelopeV2.UnmarshalJSON jsonUnmarshal e input).1.ExecutionPayload
        = e.ExecutionPayload) ∧
    (err = .new missingBlockValue →
      ∃ dec, jsonUnmarshal input = .ok dec ∧
        (ExecutionPayloadEnvelopeV2.UnmarshalJSON jsonUnmarshal e input).1.ExecutionPayload
          = dec.ExecutionPayload) := by
  unfold ExecutionPayloadEnvelopeV2.UnmarshalJSON at herr ⊢
  cases hj : jsonUnmarshal input with
  | error je =>
    rw [hj] at herr
    simp only [Option.some.injEq] at herr
    subst herr
    exact ⟨rfl, rfl, rfl, fun _ => rfl, fun h => (by cases h)⟩
  | ok dec =>
    obtain ⟨payload, value, ovr, bundle⟩ := dec
    rw [hj] at herr
    cases payload with
    | none =>
      simp only [Option.some.injEq] at herr
      subst herr
      exact ⟨rfl, rfl, rfl, fun _ => rfl,
        fun h => absurd (UnmarshalError.new.inj h) (by decide)⟩
    | some p =>
      cases value with
      | none =>
        simp only [Option.some.injEq] at herr
        subst herr
        exact ⟨rfl, rfl, rfl, fun h => absurd rfl h, fun _ => ⟨_, rfl, rfl⟩⟩
      | some v => cases herr

/-- C19, amended, at an object with a payload and no value amount. -/
theorem UnmarshalJSON_error_frame_witness :
    (ExecutionPayloadEnvelopeV2.UnmarshalJSON (constDecoder decodedNoBlockValue)
      setReceiver (Slice.ofBytes [])).1.BlockValue = setReceiver.BlockValue ∧
    (ExecutionPayloadEnvelopeV2.UnmarshalJSON (constDecoder decodedNoBlockValue)
      setReceiver (Slice.ofBytes [])).1.BlobsBundle = setReceiver.BlobsBundle ∧
    (ExecutionPayloadEnvelopeV2.UnmarshalJSON (constDecoder decodedNoBlockValue)
      setReceiver (Slice.ofBytes [])).1.Override = setReceiver.Override :=
  have h := UnmarshalJSON_error_frame (constDecoder decodedNoBlockValue) setReceiver
    (Slice.ofBytes []) (.new missingBlockValue) rfl
  ⟨h.1, h.2.1, h.2.2.1⟩

/-- C20 (absent bundle), as the code behaves: for an envelope whose `BlobsBundle`
pointer is `nil`, `ExecutionPayloadEnvelopeToV2` does not return an envelope; it
panics, because `marshalBundle` reads `b.Blobs` through the `nil` pointer. -/
theorem ExecutionPayloadEnvelopeToV2_nil_bundle {ED : Type} (payload : Option ED)
    (value : Option Int) (flag : Bool) :
    ExecutionPayloadEnvelopeToV2
      (some { ExecutionPayload := payload, BlockValue := value, BlobsBundle := none,
              Override := flag }) = .error .nilDereference ∧
    marshalBundle none = .error .nilDereference :=
  ⟨rfl, rfl⟩

end Engine
